import Mathlib

/-!
Verification of the collector module of a Proxmox VE metrics exporter
(`src/pve_exporter/collector.py`).  The collectors are shallowly embedded:
each Python collector becomes a Lean function from the decoded API
responses it reads to the metric families it emits; Python exceptions
become `Except` errors; the mutable `GaugeMetricFamily` accumulators and
the `seen_shared_storages` set become explicitly threaded state.
-/

namespace PveExporter

/-- A scalar value as found in a decoded API response: the JSON payloads
carry strings and numbers (Python bools used as metric values are already
modelled as their numeric 0/1 form where the code relies on that). -/
inductive RVal where
  | str : String → RVal
  | num : Int → RVal
deriving DecidableEq, Repr

/-- `str(v)` on a scalar, as used for label stringification. -/
def RVal.pyStr : RVal → String
  | .str s => s
  | .num n => toString n

/-- One sample of a metric family: the label values (positionally aligned
with the family's declared label names) and the sample value, as built by
`GaugeMetricFamily.add_metric(label_values, value)`. -/
structure Sample where
  labels : List RVal
  value : RVal
deriving DecidableEq, Repr

/-- A gauge metric family: name, declared label names, accumulated samples. -/
structure Family where
  name : String
  labels : List String
  samples : List Sample
deriving DecidableEq, Repr

/-! ### Python dict primitives

API records are decoded JSON objects; we embed them as insertion-ordered
association lists, which is how CPython dicts iterate. -/

/-- A decoded API record (Python dict from field name to scalar). -/
def Rec : Type := List (String × RVal)

/-- `d[k]` / `d.get(k)`: first binding of `k`, if any. -/
def pyLookup (d : List (String × RVal)) (k : String) : Option RVal :=
  match d with
  | [] => none
  | (k₁, v) :: rest => if k₁ = k then some v else pyLookup rest k

/-- `k in d`. -/
def pyContains (d : List (String × RVal)) (k : String) : Bool :=
  (pyLookup d k).isSome

/-- `del d[k]` (call sites only delete keys that are present). -/
def pyDelete (d : List (String × RVal)) (k : String) : List (String × RVal) :=
  d.filter (fun kv => kv.1 ≠ k)

/-- `d[k] = v`: update the existing binding in place, else append a new one
(CPython dicts keep the original insertion position on update). -/
def pySet (d : List (String × RVal)) (k : String) (v : RVal) : List (String × RVal) :=
  if pyContains d k then d.map (fun kv => if kv.1 = k then (k, v) else kv)
  else d ++ [(k, v)]

/-! ## VolumesCollector (collector.py lines 321-362)

`collect` iterates `self._pve.nodes.get()`; for each node it lists the
node's storages and each retained storage's content inside a
`try/except ResourceException` block.  `__init__` (lines 326-327) assigns
only `self._pve`; the `except` handler (lines 356-361) nevertheless
evaluates `self._log.exception(...)`, so the attribute lookup `self._log`
is part of the handler's behaviour and is modelled explicitly. -/

/-- View of `Except` as a sum, to transport decidable equality. -/
def exceptToSum {ε α : Type} : Except ε α → ε ⊕ α
  | .error e => .inl e
  | .ok a => .inr a

instance {ε α : Type} [DecidableEq ε] [DecidableEq α] : DecidableEq (Except ε α) :=
  fun a b =>
    decidable_of_iff (exceptToSum a = exceptToSum b)
      (by cases a <;> cases b <;> simp [exceptToSum])

/-- One volume record from `storage_api(storage).content.get()`:
the fields the loop body reads. -/
structure Volume where
  volid : String
  size : Int
deriving DecidableEq, Repr

/-- One storage backend record from `nodes(node).storage.get()`, together
with the outcome of the later `content.get()` call for it.  `active` and
`shared` are the Python truthiness of those fields; `content` is `.error`
when the content listing raises a `ResourceException`. -/
structure StorageEntry where
  type : String
  active : Bool
  shared : Bool
  storage : String
  content : Except Unit (List Volume)
deriving DecidableEq, Repr

/-- One node record from `nodes.get()`: its `node` name and the outcome of
`nodes(node).storage.get()` (`.error` models a `ResourceException`). -/
structure NodeEntry where
  node : String
  storages : Except Unit (List StorageEntry)
deriving DecidableEq, Repr

/-- Python exceptions that can escape `VolumesCollector.collect`. -/
inductive PyErr where
  | attributeError : String → PyErr
deriving DecidableEq, Repr

/-- The attribute names set on a `VolumesCollector` instance: `__init__`
(lines 326-327) assigns only `self._pve`. -/
def volumesAttrs : List String := ["_pve"]

/-- Fold state of the collect loop: the `seen_shared_storages` set (as the
list of names added so far) and the samples accumulated in `disk_size`. -/
def VolState : Type := List String × List Sample

/-- The `except ResourceException:` handler (lines 356-361): it evaluates
`self._log.exception(...)` and then `continue`s.  If the instance has no
`_log` attribute the lookup itself raises `AttributeError`, which is not
caught by anything and escapes `collect`. -/
def exceptHandler (attrs : List String) (acc : VolState) : Except PyErr VolState :=
  if "_log" ∈ attrs then .ok acc else .error (.attributeError "_log")

/-- The sample added for one volume (line 354-355):
`add_metric([f'disk/{node}/{volid}', node, storage], size)`. -/
def volumeSample (nodeName storageName : String) (v : Volume) : Sample :=
  ⟨[.str ("disk/" ++ nodeName ++ "/" ++ v.volid), .str nodeName, .str storageName],
   .num v.size⟩

/-- One iteration of the `for storage in storage_api.get():` loop
(lines 345-355).  A `.error` result is a `ResourceException` raised by
`content.get()`, carrying the state as already mutated (the set insertion
at line 351 happens before the content call at line 353). -/
def storageStep (nodeName : String) (acc : VolState) (st : StorageEntry) :
    Except VolState VolState :=
  if ¬(st.type ≠ "dir" ∧ st.active = true) then .ok acc
  else if st.shared = true ∧ st.storage ∈ acc.1 then .ok acc
  else
    let seen := st.storage :: acc.1
    match st.content with
    | .error _ => .error (seen, acc.2)
    | .ok disks => .ok (seen, acc.2 ++ disks.map (volumeSample nodeName st.storage))

/-- The whole storage loop of one node. -/
def storagesLoop (nodeName : String) (sts : List StorageEntry) (acc : VolState) :
    Except VolState VolState :=
  match sts with
  | [] => .ok acc
  | st :: rest =>
    match storageStep nodeName acc st with
    | .error e => .error e
    | .ok acc₁ => storagesLoop nodeName rest acc₁

/-- One iteration of `for node in self._pve.nodes.get():` (lines 336-361):
the `try:` body, with a raised `ResourceException` (from the storage
listing or any content listing) entering the `except` handler. -/
def nodeStep (attrs : List String) (acc : VolState) (n : NodeEntry) :
    Except PyErr VolState :=
  match n.storages with
  | .error _ => exceptHandler attrs acc
  | .ok sts =>
    match storagesLoop n.node sts acc with
    | .ok acc₁ => .ok acc₁
    | .error acc₁ => exceptHandler attrs acc₁

/-- The node loop; an uncaught exception from an iteration escapes. -/
def nodesLoop (attrs : List String) (ns : List NodeEntry) (acc : VolState) :
    Except PyErr VolState :=
  match ns with
  | [] => .ok acc
  | n :: rest =>
    match nodeStep attrs acc n with
    | .error e => .error e
    | .ok acc₁ => nodesLoop attrs rest acc₁

/-- `VolumesCollector.collect` (lines 329-362): builds the single
`pve_volume_size_bytes` family and returns `[disk_size]`. -/
def VolumesCollector.collect (ns : List NodeEntry) : Except PyErr Family :=
  match nodesLoop volumesAttrs ns ([], []) with
  | .error e => .error e
  | .ok acc =>
    .ok { name := "pve_volume_size_bytes",
          labels := ["id", "node", "storage"],
          samples := acc.2 }

/-! ### Error-free volumes inputs

A convenient sub-type of inputs on which none of the API calls raises:
every node's storage listing and every content listing succeeds. -/

/-- A storage backend whose content listing succeeds. -/
structure PStorage where
  type : String
  active : Bool
  shared : Bool
  storage : String
  content : List Volume
deriving DecidableEq, Repr

/-- A node whose storage listing succeeds. -/
structure PNode where
  node : String
  storages : List PStorage
deriving DecidableEq, Repr

def PStorage.toEntry (st : PStorage) : StorageEntry :=
  ⟨st.type, st.active, st.shared, st.storage, .ok st.content⟩

def PNode.toEntry (n : PNode) : NodeEntry :=
  ⟨n.node, .ok (n.storages.map PStorage.toEntry)⟩

/-- `storageStep` restricted to error-free storages (same branch structure). -/
def pureStorageStep (nodeName : String) (acc : VolState) (st : PStorage) : VolState :=
  if ¬(st.type ≠ "dir" ∧ st.active = true) then acc
  else if st.shared = true ∧ st.storage ∈ acc.1 then acc
  else (st.storage :: acc.1, acc.2 ++ st.content.map (volumeSample nodeName st.storage))

def pureStoragesLoop (nodeName : String) (sts : List PStorage) (acc : VolState) : VolState :=
  match sts with
  | [] => acc
  | st :: rest => pureStoragesLoop nodeName rest (pureStorageStep nodeName acc st)

def pureNodesLoop (ns : List PNode) (acc : VolState) : VolState :=
  match ns with
  | [] => acc
  | n :: rest => pureNodesLoop rest (pureStoragesLoop n.node n.storages acc)

/-- The sample list `VolumesCollector.collect` produces on error-free input. -/
def runPure (ns : List PNode) : List Sample := (pureNodesLoop ns ([], [])).2

lemma storageStep_pure (nodeName : String) (acc : VolState) (st : PStorage) :
    storageStep nodeName acc st.toEntry = .ok (pureStorageStep nodeName acc st) := by
  simp only [storageStep, pureStorageStep, PStorage.toEntry]
  split
  · rfl
  · split <;> rfl

lemma storagesLoop_pure (nodeName : String) (sts : List PStorage) (acc : VolState) :
    storagesLoop nodeName (sts.map PStorage.toEntry) acc =
      .ok (pureStoragesLoop nodeName sts acc) := by
  induction sts generalizing acc with
  | nil => rfl
  | cons st rest ih =>
    simp only [List.map, storagesLoop, pureStoragesLoop, storageStep_pure]
    exact ih _

lemma nodesLoop_pure (ns : List PNode) (acc : VolState) :
    nodesLoop volumesAttrs (ns.map PNode.toEntry) acc = .ok (pureNodesLoop ns acc) := by
  induction ns generalizing acc with
  | nil => rfl
  | cons n rest ih =>
    simp only [List.map, nodesLoop, nodeStep, PNode.toEntry, pureNodesLoop, storagesLoop_pure]
    exact ih _

/-- On error-free inputs `collect` succeeds and returns the pure run. -/
lemma collect_pure (ns : List PNode) :
    VolumesCollector.collect (ns.map PNode.toEntry) =
      .ok { name := "pve_volume_size_bytes",
            labels := ["id", "node", "storage"],
            samples := runPure ns } := by
  simp only [VolumesCollector.collect, nodesLoop_pure, runPure]

/-! ### Spec-level description of the volume collection (amended claim 2) -/

/-- Retention rule as the amended claim states it: a backend is retained iff
it is active and of a kind other than "dir". -/
def specRetained (st : PStorage) : Bool := st.active && st.type != "dir"

/-- Spec-level walk of one node's storage list, following the amended
claim's words: a backend that is not retained contributes nothing; a
retained backend whose name was already recorded is skipped when it is
shared; otherwise its name is recorded and one sample is emitted per
volume of its content, with id "disk/{node}/{volid}", labels
(id, node, storage) and the volume's size as value. -/
def specStorages (nodeName : String) (sts : List PStorage) (acc : VolState) : VolState :=
  match sts with
  | [] => acc
  | st :: rest =>
    if specRetained st then
      if st.shared = true ∧ st.storage ∈ acc.1 then specStorages nodeName rest acc
      else specStorages nodeName rest
        (st.storage :: acc.1, acc.2 ++ st.content.map (volumeSample nodeName st.storage))
    else specStorages nodeName rest acc

/-- Spec-level sample list over the whole node listing, in listing order. -/
def specSamples (ns : List PNode) : List Sample :=
  (ns.foldl (fun acc n => specStorages n.node n.storages acc) ([], [])).2

lemma specStorages_eq_pure (nodeName : String) (sts : List PStorage) (acc : VolState) :
    specStorages nodeName sts acc = pureStoragesLoop nodeName sts acc := by
  induction sts generalizing acc with
  | nil => rfl
  | cons st rest ih =>
    simp only [specStorages, pureStoragesLoop, pureStorageStep]
    have hiff : specRetained st = true ↔ (st.type ≠ "dir" ∧ st.active = true) := by
      constructor
      · intro h
        simp only [specRetained, Bool.and_eq_true, bne_iff_ne, ne_eq] at h
        exact ⟨h.2, h.1⟩
      · intro h
        simp only [specRetained, Bool.and_eq_true, bne_iff_ne, ne_eq]
        exact ⟨h.2, h.1⟩
    by_cases h₁ : st.type ≠ "dir" ∧ st.active = true
    · rw [if_pos (hiff.mpr h₁), if_neg (not_not_intro h₁)]
      by_cases h₂ : st.shared = true ∧ st.storage ∈ acc.1
      · rw [if_pos h₂, if_pos h₂]
        exact ih _
      · rw [if_neg h₂, if_neg h₂]
        exact ih _
    · rw [if_neg (fun hc => h₁ (hiff.mp hc)), if_pos h₁]
      exact ih _

lemma specSamples_eq_runPure (ns : List PNode) : specSamples ns = runPure ns := by
  have h : ∀ (l : List PNode) (acc : VolState),
      l.foldl (fun acc n => specStorages n.node n.storages acc) acc = pureNodesLoop l acc := by
    intro l
    induction l with
    | nil => intro acc; rfl
    | cons n rest ih =>
      intro acc
      have hn : specStorages n.node n.storages acc = pureStoragesLoop n.node n.storages acc :=
        specStorages_eq_pure _ _ _
      simp only [List.foldl, pureNodesLoop, hn]
      exact ih _
  simp only [specSamples, runPure, h]

/-- Claim C2 (amended): on every error-free input, `VolumesCollector.collect`
returns the `pve_volume_size_bytes` family whose samples are exactly the
spec-level ones: backends that are inactive or of kind "dir" contribute
nothing, and every active non-"dir" backend not deduplicated away has its
content listed and one sample per volume with id "disk/{node}/{volid}",
labels (id, node, storage), and the volume's size in bytes as value. -/
theorem C2_volumes_retention :
    ∀ ns : List PNode,
      VolumesCollector.collect (ns.map PNode.toEntry) =
        .ok { name := "pve_volume_size_bytes",
              labels := ["id", "node", "storage"],
              samples := specSamples ns } := by
  intro ns
  rw [collect_pure, specSamples_eq_runPure]

/-- Claim C2 counterexample: an active backend of kind "dir" holding one
volume contributes no sample (first conjunct), while an active backend of a
non-"dir" kind is the one that is retained (second conjunct) — the code
keeps exactly the backends whose type is NOT "dir", the opposite of the
claimed kind filter. -/
theorem C2_counterexample :
    VolumesCollector.collect
        [PNode.toEntry ⟨"pve1", [⟨"dir", true, false, "local", [⟨"vm-100-disk-0", 7⟩]⟩]⟩] =
      .ok { name := "pve_volume_size_bytes", labels := ["id", "node", "storage"],
            samples := [] }
    ∧ VolumesCollector.collect
        [PNode.toEntry ⟨"pve1", [⟨"lvmthin", true, false, "local-lvm",
            [⟨"vm-100-disk-0", 7⟩]⟩]⟩] =
      .ok { name := "pve_volume_size_bytes", labels := ["id", "node", "storage"],
            samples := [⟨[.str "disk/pve1/vm-100-disk-0", .str "pve1", .str "local-lvm"],
                         .num 7⟩] } :=
  ⟨rfl, rfl⟩

/-- Claim C1 (code bug): with a first healthy node and a second node whose
storage listing raises a `ResourceException`, `collect` does not log and
continue — the `except` handler evaluates `self._log`, an attribute that
`__init__` never sets, so an `AttributeError` escapes the collector and the
scrape fails (first conjunct).  The first node alone would have produced
its samples (second conjunct), so the crash also discards them. -/
theorem C1_failing_input_eval :
    VolumesCollector.collect
        [PNode.toEntry ⟨"pve1", [⟨"lvmthin", true, false, "local-lvm",
            [⟨"vm-100-disk-0", 7⟩]⟩]⟩,
         ⟨"pve2", .error ()⟩] = .error (.attributeError "_log")
    ∧ VolumesCollector.collect
        [PNode.toEntry ⟨"pve1", [⟨"lvmthin", true, false, "local-lvm",
            [⟨"vm-100-disk-0", 7⟩]⟩]⟩] =
      .ok { name := "pve_volume_size_bytes", labels := ["id", "node", "storage"],
            samples := [⟨[.str "disk/pve1/vm-100-disk-0", .str "pve1", .str "local-lvm"],
                         .num 7⟩] } :=
  ⟨rfl, rfl⟩

/-! ### Invariants of the volumes run (deduplication behaviour) -/

/-- The node-name label of a sample of the `pve_volume_size_bytes` family
(declared labels are (id, node, storage), so position 1). -/
def Sample.nodeLabel (s : Sample) : Option RVal := s.labels[1]?

/-- The storage-name label of such a sample (position 2). -/
def Sample.storageLabel (s : Sample) : Option RVal := s.labels[2]?

lemma volumeSample_nodeLabel (n sn : String) (v : Volume) :
    (volumeSample n sn v).nodeLabel = some (.str n) := rfl

lemma volumeSample_storageLabel (n sn : String) (v : Volume) :
    (volumeSample n sn v).storageLabel = some (.str sn) := rfl

/-- A storage backend is retained by the code iff it is active and its type
differs from "dir" (the condition of line 346 that avoids `continue`). -/
def retainedCond (st : PStorage) : Prop := st.type ≠ "dir" ∧ st.active = true

instance (st : PStorage) : Decidable (retainedCond st) := by
  unfold retainedCond; infer_instance

lemma step_seen_mono (n : String) (acc : VolState) (st : PStorage) (a : String)
    (h : a ∈ acc.1) : a ∈ (pureStorageStep n acc st).1 := by
  unfold pureStorageStep
  split
  · exact h
  · split
    · exact h
    · exact List.mem_cons_of_mem _ h

lemma step_samples_mono (n : String) (acc : VolState) (st : PStorage) (s : Sample)
    (h : s ∈ acc.2) : s ∈ (pureStorageStep n acc st).2 := by
  unfold pureStorageStep
  split
  · exact h
  · split
    · exact h
    · exact List.mem_append_left _ h

lemma loop_seen_mono (n : String) (sts : List PStorage) (acc : VolState) (a : String)
    (h : a ∈ acc.1) : a ∈ (pureStoragesLoop n sts acc).1 := by
  induction sts generalizing acc with
  | nil => exact h
  | cons st rest ih => exact ih _ (step_seen_mono n acc st a h)

lemma loop_samples_mono (n : String) (sts : List PStorage) (acc : VolState) (s : Sample)
    (h : s ∈ acc.2) : s ∈ (pureStoragesLoop n sts acc).2 := by
  induction sts generalizing acc with
  | nil => exact h
  | cons st rest ih => exact ih _ (step_samples_mono n acc st s h)

/-- Line 351 runs for every retained backend, shared or not: after the loop
passes a retained backend, its name is in `seen_shared_storages`. -/
lemma step_retained_seen (n : String) (acc : VolState) (st : PStorage)
    (h : retainedCond st) : st.storage ∈ (pureStorageStep n acc st).1 := by
  unfold retainedCond at h
  unfold pureStorageStep
  rw [if_neg (not_not_intro h)]
  split
  · next h₂ => exact h₂.2
  · exact List.mem_cons_self _ _

lemma loop_retained_seen (n : String) (sts : List PStorage) (acc : VolState)
    (st : PStorage) (hmem : st ∈ sts) (h : retainedCond st) :
    st.storage ∈ (pureStoragesLoop n sts acc).1 := by
  induction sts generalizing acc with
  | nil => cases hmem
  | cons st₁ rest ih =>
    simp only [pureStoragesLoop]
    rcases List.mem_cons.mp hmem with heq | htl
    · subst heq
      exact loop_seen_mono _ _ _ _ (step_retained_seen n acc st h)
    · exact ih _ htl

/-- Every sample the storage loop adds comes from a volume of one of the
listed backends, attributed to this node and that backend's name. -/
lemma loop_sample_src (n : String) (sts : List PStorage) (acc : VolState) (s : Sample)
    (h : s ∈ (pureStoragesLoop n sts acc).2) :
    s ∈ acc.2 ∨ ∃ st ∈ sts, ∃ v ∈ st.content, s = volumeSample n st.storage v := by
  induction sts generalizing acc with
  | nil => exact .inl h
  | cons st rest ih =>
    rcases ih _ h with hstep | ⟨st₁, hst₁, v, hv, hs⟩
    · unfold pureStorageStep at hstep
      split at hstep
      · exact .inl hstep
      · split at hstep
        · exact .inl hstep
        · rcases List.mem_append.mp hstep with hacc | hnew
          · exact .inl hacc
          · rcases List.mem_map.mp hnew with ⟨v, hv, hs⟩
            exact .inr ⟨st, List.mem_cons_self _ _, v, hv, hs.symm⟩
    · exact .inr ⟨st₁, List.mem_cons_of_mem _ hst₁, v, hv, hs⟩

/-- If a name is already recorded and every backend of this node carrying
that name is shared, the storage loop adds no sample labelled with it. -/
lemma loop_skip (n : String) (sts : List PStorage) (acc : VolState) (sname : String)
    (hseen : sname ∈ acc.1)
    (hsh : ∀ st ∈ sts, st.storage = sname → st.shared = true) :
    ∀ s ∈ (pureStoragesLoop n sts acc).2,
      s ∈ acc.2 ∨ s.storageLabel ≠ some (.str sname) := by
  induction sts generalizing acc with
  | nil => exact fun s hs => .inl hs
  | cons st rest ih =>
    intro s hs
    have hseen₁ : sname ∈ (pureStorageStep n acc st).1 := step_seen_mono n acc st _ hseen
    rcases ih _ hseen₁ (fun st₁ h₁ => hsh st₁ (List.mem_cons_of_mem _ h₁)) s hs
      with hstep | hne
    · unfold pureStorageStep at hstep
      split at hstep
      · exact .inl hstep
      · next hret =>
        split at hstep
        · exact .inl hstep
        · next hskip =>
          rcases List.mem_append.mp hstep with hacc | hnew
          · exact .inl hacc
          · rcases List.mem_map.mp hnew with ⟨v, _, hsv⟩
            right
            subst hsv
            rw [volumeSample_storageLabel]
            intro hc
            have hname : st.storage = sname := by
              simpa using hc
            exact hskip ⟨hsh st (List.mem_cons_self _ _) hname, hname ▸ hseen⟩
    · exact .inr hne

/-- A retained non-shared backend is never skipped: each of its volumes
produces its sample, whatever names were seen before. -/
lemma step_nonshared_present (n : String) (acc : VolState) (st : PStorage) (v : Volume)
    (hret : retainedCond st) (hsh : st.shared = false) (hv : v ∈ st.content) :
    volumeSample n st.storage v ∈ (pureStorageStep n acc st).2 := by
  unfold retainedCond at hret
  unfold pureStorageStep
  rw [if_neg (not_not_intro hret), if_neg (by simp [hsh])]
  exact List.mem_append_right _ (List.mem_map_of_mem _ hv)

lemma loop_nonshared_present (n : String) (sts : List PStorage) (acc : VolState)
    (st : PStorage) (v : Volume) (hmem : st ∈ sts)
    (hret : retainedCond st) (hsh : st.shared = false) (hv : v ∈ st.content) :
    volumeSample n st.storage v ∈ (pureStoragesLoop n sts acc).2 := by
  induction sts generalizing acc with
  | nil => cases hmem
  | cons st₁ rest ih =>
    simp only [pureStoragesLoop]
    rcases List.mem_cons.mp hmem with heq | htl
    · subst heq
      exact loop_samples_mono _ _ _ _ (step_nonshared_present n acc st v hret hsh hv)
    · exact ih _ htl

/-! Node-level versions of the invariants. -/

lemma nodes_seen_mono (ns : List PNode) (acc : VolState) (a : String)
    (h : a ∈ acc.1) : a ∈ (pureNodesLoop ns acc).1 := by
  induction ns generalizing acc with
  | nil => exact h
  | cons n rest ih => exact ih _ (loop_seen_mono _ _ _ _ h)

lemma nodes_samples_mono (ns : List PNode) (acc : VolState) (s : Sample)
    (h : s ∈ acc.2) : s ∈ (pureNodesLoop ns acc).2 := by
  induction ns generalizing acc with
  | nil => exact h
  | cons n rest ih => exact ih _ (loop_samples_mono _ _ _ _ h)

lemma nodes_sample_src (ns : List PNode) (acc : VolState) (s : Sample)
    (h : s ∈ (pureNodesLoop ns acc).2) :
    s ∈ acc.2 ∨ ∃ n ∈ ns, ∃ st ∈ n.storages, ∃ v ∈ st.content,
      s = volumeSample n.node st.storage v := by
  induction ns generalizing acc with
  | nil => exact .inl h
  | cons n rest ih =>
    rcases ih _ h with hnode | ⟨n₁, hn₁, st, hst, v, hv, hs⟩
    · rcases loop_sample_src _ _ _ _ hnode with hacc | ⟨st, hst, v, hv, hs⟩
      · exact .inl hacc
      · exact .inr ⟨n, List.mem_cons_self _ _, st, hst, v, hv, hs⟩
    · exact .inr ⟨n₁, List.mem_cons_of_mem _ hn₁, st, hst, v, hv, hs⟩

lemma nodes_skip (ns : List PNode) (acc : VolState) (sname : String)
    (hseen : sname ∈ acc.1)
    (hsh : ∀ n ∈ ns, ∀ st ∈ n.storages, st.storage = sname → st.shared = true) :
    ∀ s ∈ (pureNodesLoop ns acc).2, s ∈ acc.2 ∨ s.storageLabel ≠ some (.str sname) := by
  induction ns generalizing acc with
  | nil => exact fun s hs => .inl hs
  | cons n rest ih =>
    intro s hs
    have hseen₁ : sname ∈ (pureStoragesLoop n.node n.storages acc).1 :=
      loop_seen_mono _ _ _ _ hseen
    rcases ih _ hseen₁ (fun n₁ h₁ => hsh n₁ (List.mem_cons_of_mem _ h₁)) s hs
      with hnode | hne
    · rcases loop_skip n.node n.storages acc sname hseen
          (fun st h₁ => hsh n (List.mem_cons_self _ _) st h₁) s hnode with hacc | hne
      · exact .inl hacc
      · exact .inr hne
    · exact .inr hne

lemma nodes_append (a b : List PNode) (acc : VolState) :
    pureNodesLoop (a ++ b) acc = pureNodesLoop b (pureNodesLoop a acc) := by
  induction a generalizing acc with
  | nil => rfl
  | cons n rest ih =>
    simp only [List.cons_append, pureNodesLoop]
    exact ih _

lemma nodes_nonshared_present (ns : List PNode) (acc : VolState) (nb : PNode)
    (st : PStorage) (v : Volume) (hn : nb ∈ ns) (hst : st ∈ nb.storages)
    (hret : retainedCond st) (hsh : st.shared = false) (hv : v ∈ st.content) :
    volumeSample nb.node st.storage v ∈ (pureNodesLoop ns acc).2 := by
  induction ns generalizing acc with
  | nil => cases hn
  | cons n rest ih =>
    simp only [pureNodesLoop]
    rcases List.mem_cons.mp hn with heq | htl
    · subst heq
      exact nodes_samples_mono _ _ _
        (loop_nonshared_present nb.node nb.storages acc st v hst hret hsh hv)
    · exact ih _ htl

/-- Core of the deduplication behaviour: if some node `na` reports a
retained storage named `sname`, every node after it reports that name only
as shared, and no other node reports it at all, then every emitted sample
labelled with that storage name carries `na`'s node name. -/
lemma dedup_first_wins (l₁ : List PNode) (na : PNode) (l₂ : List PNode) (nb : PNode)
    (l₃ : List PNode) (sname : String)
    (ha : ∃ st ∈ na.storages, retainedCond st ∧ st.storage = sname)
    (hb : ∀ st ∈ nb.storages, st.storage = sname → st.shared = true)
    (h₁ : ∀ n ∈ l₁, ∀ st ∈ n.storages, st.storage ≠ sname)
    (h₂ : ∀ n ∈ l₂, ∀ st ∈ n.storages, st.storage ≠ sname)
    (h₃ : ∀ n ∈ l₃, ∀ st ∈ n.storages, st.storage ≠ sname) :
    ∀ smp ∈ runPure (l₁ ++ na :: l₂ ++ nb :: l₃),
      smp.storageLabel = some (.str sname) → smp.nodeLabel = some (.str na.node) := by
  intro smp hmem hsl
  have hnotname : ∀ (l : List PNode), (∀ n ∈ l, ∀ st ∈ n.storages, st.storage ≠ sname) →
      ∀ (n : PNode) (st : PStorage) (v : Volume), n ∈ l → st ∈ n.storages →
        smp = volumeSample n.node st.storage v → False := by
    intro l hl n st v hn hst hs
    apply hl n hn st hst
    subst hs
    rw [volumeSample_storageLabel] at hsl
    simpa using hsl
  unfold runPure at hmem
  rw [nodes_append] at hmem
  rw [pureNodesLoop] at hmem
  rw [nodes_append] at hmem
  rw [pureNodesLoop] at hmem
  set acc₁ := pureNodesLoop l₁ ([], []) with hacc₁
  set acc₂ := pureStoragesLoop na.node na.storages acc₁ with hacc₂
  set acc₃ := pureNodesLoop l₂ acc₂ with hacc₃
  set acc₄ := pureStoragesLoop nb.node nb.storages acc₃ with hacc₄
  have hseen₂ : sname ∈ acc₂.1 := by
    obtain ⟨st, hst, hret, hname⟩ := ha
    have := loop_retained_seen na.node na.storages acc₁ st hst hret
    rwa [hname] at this
  have hseen₃ : sname ∈ acc₃.1 := nodes_seen_mono l₂ acc₂ sname hseen₂
  have hin₄ : smp ∈ acc₄.2 := by
    rcases nodes_sample_src l₃ acc₄ smp hmem with h | ⟨n, hn, st, hst, v, hv, hs⟩
    · exact h
    · exact (hnotname l₃ h₃ n st v hn hst hs).elim
  have hin₃ : smp ∈ acc₃.2 := by
    rcases loop_skip nb.node nb.storages acc₃ sname hseen₃ hb smp hin₄ with h | h
    · exact h
    · exact absurd hsl h
  have hin₂ : smp ∈ acc₂.2 := by
    rcases nodes_sample_src l₂ acc₂ smp hin₃ with h | ⟨n, hn, st, hst, v, hv, hs⟩
    · exact h
    · exact (hnotname l₂ h₂ n st v hn hst hs).elim
  rcases loop_sample_src na.node na.storages acc₁ smp hin₂ with hin₁ | ⟨st, hst, v, hv, hs⟩
  · rcases nodes_sample_src l₁ ([], []) smp hin₁ with h | ⟨n, hn, st, hst, v, hv, hs⟩
    · cases h
    · exact (hnotname l₁ h₁ n st v hn hst hs).elim
  · subst hs
    exact volumeSample_nodeLabel _ _ _

/-- Claim C6: if two different nodes both report a retained storage backend
marked shared with the same storage name (the later node reporting that
name only as shared, and no other node reporting it), then every emitted
volume sample for that storage is attributed to the first of the two nodes
in node-listing order — the later node's copy is skipped. -/
theorem C6_shared_storage_first_node_wins :
    ∀ (l₁ : List PNode) (na : PNode) (l₂ : List PNode) (nb : PNode) (l₃ : List PNode)
      (sname : String),
      (∃ st ∈ na.storages, retainedCond st ∧ st.shared = true ∧ st.storage = sname) →
      (∃ st ∈ nb.storages, retainedCond st ∧ st.shared = true ∧ st.storage = sname) →
      (∀ st ∈ nb.storages, st.storage = sname → st.shared = true) →
      (∀ n ∈ l₁, ∀ st ∈ n.storages, st.storage ≠ sname) →
      (∀ n ∈ l₂, ∀ st ∈ n.storages, st.storage ≠ sname) →
      (∀ n ∈ l₃, ∀ st ∈ n.storages, st.storage ≠ sname) →
      ∃ fam,
        VolumesCollector.collect ((l₁ ++ na :: l₂ ++ nb :: l₃).map PNode.toEntry) =
          .ok fam ∧
        ∀ smp ∈ fam.samples, smp.storageLabel = some (.str sname) →
          smp.nodeLabel = some (.str na.node) := by
  intro l₁ na l₂ nb l₃ sname ha hb hbsh h₁ h₂ h₃
  refine ⟨_, collect_pure _, ?_⟩
  obtain ⟨st, hst, hret, _, hname⟩ := ha
  exact dedup_first_wins l₁ na l₂ nb l₃ sname ⟨st, hst, hret, hname⟩ hbsh h₁ h₂ h₃

/-- Claim C6 instantiated: two nodes, each reporting the same shared
retained storage; the single emitted sample is attributed to the first. -/
theorem C6_witness :
    (∃ st ∈ [(⟨"nfs", true, true, "shared1", [⟨"vm-100-disk-0", 5⟩]⟩ : PStorage)],
        retainedCond st ∧ st.shared = true ∧ st.storage = "shared1")
    ∧ (∃ fam,
        VolumesCollector.collect
            (([] ++ (⟨"pve1", [⟨"nfs", true, true, "shared1", [⟨"vm-100-disk-0", 5⟩]⟩]⟩ : PNode)
              :: [] ++ (⟨"pve2", [⟨"nfs", true, true, "shared1", [⟨"vm-100-disk-0", 5⟩]⟩]⟩ : PNode)
              :: []).map PNode.toEntry) = .ok fam ∧
        ∀ smp ∈ fam.samples, smp.storageLabel = some (.str "shared1") →
          smp.nodeLabel = some (.str "pve1")) :=
  ⟨by decide,
   C6_shared_storage_first_node_wins [] _ [] _ [] "shared1"
     (by decide) (by decide) (by decide) (by decide) (by decide) (by decide)⟩

/-- Claim C10: the deduplication set records the name of every retained
backend, shared or not.  First part: a shared storage whose name equals the
name of a non-shared retained backend already processed on an earlier node
is skipped, even though no shared copy of that name was ever inspected.
Second part: a retained non-shared backend is never skipped — each of its
volumes yields its sample regardless of what names were seen before. -/
theorem C10_seen_set_records_nonshared :
    (∀ (l₁ : List PNode) (na : PNode) (l₂ : List PNode) (nb : PNode) (l₃ : List PNode)
      (sname : String),
      (∃ st ∈ na.storages, retainedCond st ∧ st.shared = false ∧ st.storage = sname) →
      (∀ st ∈ na.storages, st.storage = sname → st.shared = false) →
      (∃ st ∈ nb.storages, retainedCond st ∧ st.shared = true ∧ st.storage = sname) →
      (∀ st ∈ nb.storages, st.storage = sname → st.shared = true) →
      (∀ n ∈ l₁, ∀ st ∈ n.storages, st.storage ≠ sname) →
      (∀ n ∈ l₂, ∀ st ∈ n.storages, st.storage ≠ sname) →
      (∀ n ∈ l₃, ∀ st ∈ n.storages, st.storage ≠ sname) →
      ∃ fam,
        VolumesCollector.collect ((l₁ ++ na :: l₂ ++ nb :: l₃).map PNode.toEntry) =
          .ok fam ∧
        ∀ smp ∈ fam.samples, smp.storageLabel = some (.str sname) →
          smp.nodeLabel = some (.str na.node))
    ∧ (∀ (ns : List PNode) (nb : PNode) (st : PStorage) (v : Volume),
        nb ∈ ns → st ∈ nb.storages → retainedCond st → st.shared = false →
        v ∈ st.content →
        ∃ fam, VolumesCollector.collect (ns.map PNode.toEntry) = .ok fam ∧
          volumeSample nb.node st.storage v ∈ fam.samples) := by
  constructor
  · intro l₁ na l₂ nb l₃ sname ha _ _ hbsh h₁ h₂ h₃
    refine ⟨_, collect_pure _, ?_⟩
    obtain ⟨st, hst, hret, _, hname⟩ := ha
    exact dedup_first_wins l₁ na l₂ nb l₃ sname ⟨st, hst, hret, hname⟩ hbsh h₁ h₂ h₃
  · intro ns nb st v hn hst hret hsh hv
    exact ⟨_, collect_pure _, nodes_nonshared_present ns ([], []) nb st v hn hst hret hsh hv⟩

/-- Claim C10 instantiated: node pve1 has a non-shared retained storage
"local"; node pve2 reports a shared storage of the same name, which is
skipped, while duplicate non-shared names (pve3) are still processed. -/
theorem C10_witness :
    (∃ st ∈ [(⟨"zfs", true, false, "local", [⟨"vm-1-disk-0", 3⟩]⟩ : PStorage)],
        retainedCond st ∧ st.shared = false ∧ st.storage = "local")
    ∧ (∃ fam,
        VolumesCollector.collect
            (([] ++ (⟨"pve1", [⟨"zfs", true, false, "local", [⟨"vm-1-disk-0", 3⟩]⟩]⟩ : PNode)
              :: [] ++ (⟨"pve2", [⟨"zfs", true, true, "local", [⟨"vm-2-disk-0", 4⟩]⟩]⟩ : PNode)
              :: []).map PNode.toEntry) = .ok fam ∧
        ∀ smp ∈ fam.samples, smp.storageLabel = some (.str "local") →
          smp.nodeLabel = some (.str "pve1"))
    ∧ (∃ fam,
        VolumesCollector.collect
            ([(⟨"pve1", [⟨"zfs", true, false, "local", [⟨"vm-1-disk-0", 3⟩]⟩]⟩ : PNode),
              ⟨"pve3", [⟨"zfs", true, false, "local", [⟨"vm-3-disk-0", 9⟩]⟩]⟩].map
              PNode.toEntry) = .ok fam ∧
        volumeSample "pve3" "local" ⟨"vm-3-disk-0", 9⟩ ∈ fam.samples) :=
  ⟨by decide,
   C10_seen_set_records_nonshared.1 [] _ [] _ [] "local"
     (by decide) (by decide) (by decide) (by decide) (by decide) (by decide) (by decide),
   C10_seen_set_records_nonshared.2
     [⟨"pve1", [⟨"zfs", true, false, "local", [⟨"vm-1-disk-0", 3⟩]⟩]⟩,
      ⟨"pve3", [⟨"zfs", true, false, "local", [⟨"vm-3-disk-0", 9⟩]⟩]⟩]
     ⟨"pve3", [⟨"zfs", true, false, "local", [⟨"vm-3-disk-0", 9⟩]⟩]⟩
     ⟨"zfs", true, false, "local", [⟨"vm-3-disk-0", 9⟩]⟩ ⟨"vm-3-disk-0", 9⟩
     (by decide) (by decide) (by decide) (by decide) (by decide)⟩

/-! ## StatusCollector (collector.py lines 30-65) -/

/-- A `cluster.status.get()` entry with the fields the collector reads:
the branch is selected on `type`, and each branch reads the fields listed
here (`online` and `quorate` are the 0/1 integers the API returns). -/
structure StatusEntry where
  type : String
  id : String
  online : Int
  name : String
  quorate : Int
deriving DecidableEq, Repr

/-- A `cluster.resources.get(type='vm')` record: the fields read. -/
structure VmResource where
  id : String
  status : String
deriving DecidableEq, Repr

/-- The sample added for one status entry (lines 52-59); an entry of an
unrecognised type raises `ValueError` (line 59). -/
def statusSample (e : StatusEntry) : Except String Sample :=
  if e.type = "node" then .ok ⟨[.str e.id], .num e.online⟩
  else if e.type = "cluster" then .ok ⟨[.str ("cluster/" ++ e.name)], .num e.quorate⟩
  else .error ("Got unexpected status entry type " ++ e.type)

/-- The sample added for one vm resource (lines 61-63): the value is the
Python bool `status == 'running'`, numerically 1 or 0. -/
def vmSample (r : VmResource) : Sample :=
  ⟨[.str r.id], .num (if r.status = "running" then 1 else 0)⟩

/-- `StatusCollector.collect` (lines 45-65): a single `pve_up` family with
declared label `id`; the generator adds samples entry by entry, so an
unexpected entry type raises before anything is yielded. -/
def StatusCollector.collect (status : List StatusEntry) (vms : List VmResource) :
    Except String Family := do
  let ss ← status.mapM statusSample
  pure { name := "pve_up",
         labels := ["id"],
         samples := ss ++ vms.map vmSample }

lemma statusSample_ok (e : StatusEntry) (h : e.type = "node" ∨ e.type = "cluster") :
    statusSample e = .ok (if e.type = "node" then ⟨[.str e.id], .num e.online⟩
      else ⟨[.str ("cluster/" ++ e.name)], .num e.quorate⟩) := by
  rcases eq_or_ne e.type "node" with h₂ | h₂
  · simp [statusSample, h₂]
  · have hc : e.type = "cluster" := h.resolve_left h₂
    simp [statusSample, h₂, hc]

lemma status_mapM_ok (status : List StatusEntry)
    (h : ∀ e ∈ status, e.type = "node" ∨ e.type = "cluster") :
    status.mapM statusSample = .ok (status.map (fun e =>
      if e.type = "node" then (⟨[.str e.id], .num e.online⟩ : Sample)
      else ⟨[.str ("cluster/" ++ e.name)], .num e.quorate⟩)) := by
  induction status with
  | nil => rfl
  | cons e rest ih =>
    rw [List.mapM_cons, statusSample_ok e (h e (List.mem_cons_self _ _)),
      ih (fun e₁ h₁ => h e₁ (List.mem_cons_of_mem _ h₁))]
    rfl

lemma status_mapM_err (status : List StatusEntry) (e : StatusEntry)
    (hmem : e ∈ status) (h₁ : e.type ≠ "node") (h₂ : e.type ≠ "cluster") :
    ∃ msg, status.mapM statusSample = .error msg := by
  induction status with
  | nil => cases hmem
  | cons a rest ih =>
    by_cases hgood : a.type = "node" ∨ a.type = "cluster"
    · have hea : e ≠ a := by
        rintro rfl
        rcases hgood with h | h
        exacts [h₁ h, h₂ h]
      have hrest : e ∈ rest := by
        rcases List.mem_cons.mp hmem with h | h
        · exact absurd h hea
        · exact h
      obtain ⟨msg, hmsg⟩ := ih hrest
      refine ⟨msg, ?_⟩
      rw [List.mapM_cons, statusSample_ok a hgood, hmsg]
      rfl
    · push_neg at hgood
      refine ⟨"Got unexpected status entry type " ++ a.type, ?_⟩
      have ha : statusSample a = .error ("Got unexpected status entry type " ++ a.type) := by
        simp [statusSample, hgood.1, hgood.2]
      rw [List.mapM_cons, ha]
      rfl

/-- Claim C4: `StatusCollector` emits into one `pve_up` family exactly one
sample per status entry — for type "node" with label `id` and value the
online flag, for type "cluster" with label `"cluster/" + name` and value
the quorate flag — plus one sample per vm resource with its id and value 1
iff its status is "running"; an entry of any other type raises an error
that aborts the scrape. -/
theorem C4_status_up_family :
    (∀ (status : List StatusEntry) (vms : List VmResource),
      (∀ e ∈ status, e.type = "node" ∨ e.type = "cluster") →
      StatusCollector.collect status vms =
        .ok { name := "pve_up", labels := ["id"],
              samples :=
                status.map (fun e =>
                  if e.type = "node" then (⟨[.str e.id], .num e.online⟩ : Sample)
                  else ⟨[.str ("cluster/" ++ e.name)], .num e.quorate⟩)
                ++ vms.map vmSample })
    ∧ (∀ (status : List StatusEntry) (vms : List VmResource) (e : StatusEntry),
        e ∈ status → e.type ≠ "node" → e.type ≠ "cluster" →
        ∃ msg, StatusCollector.collect status vms = .error msg) := by
  constructor
  · intro status vms h
    unfold StatusCollector.collect
    rw [status_mapM_ok status h]
    rfl
  · intro status vms e hmem h₁ h₂
    obtain ⟨msg, hmsg⟩ := status_mapM_err status e hmem h₁ h₂
    refine ⟨msg, ?_⟩
    unfold StatusCollector.collect
    rw [hmsg]
    rfl

/-- Claim C4 instantiated: one node entry, one cluster entry and one vm
resource produce the three expected samples; a "storage"-typed status
entry makes the collector raise. -/
theorem C4_witness :
    StatusCollector.collect
        [⟨"node", "node/pve1", 1, "", 0⟩, ⟨"cluster", "", 0, "pvec", 1⟩]
        [⟨"qemu/102", "running"⟩] =
      .ok { name := "pve_up", labels := ["id"],
            samples := [⟨[.str "node/pve1"], .num 1⟩,
                        ⟨[.str "cluster/pvec"], .num 1⟩,
                        ⟨[.str "qemu/102"], .num 1⟩] }
    ∧ (∃ msg, StatusCollector.collect [⟨"storage", "s", 0, "", 0⟩] [] = .error msg) :=
  ⟨(C4_status_up_family.1 [⟨"node", "node/pve1", 1, "", 0⟩, ⟨"cluster", "", 0, "pvec", 1⟩]
      [⟨"qemu/102", "running"⟩] (by decide)).trans (by decide),
   C4_status_up_family.2 [⟨"storage", "s", 0, "", 0⟩] []
     ⟨"storage", "s", 0, "", 0⟩ (by decide) (by decide) (by decide)⟩

/-! ## VersionCollector (collector.py lines 67-93) -/

/-- The fixed label whitelist (line 76). -/
def VersionCollector.LABEL_WHITELIST : List String := ["release", "repoid", "version"]

/-- `VersionCollector.collect` (lines 81-93): a dict comprehension keeps
the whitelisted pairs of the response, in response order; then
`labels, label_values = zip(*version.items())` unpacks them — unpacking
the empty zip raises `ValueError`.  Otherwise exactly one sample of value
1 is added under those labels. -/
def VersionCollector.collect (resp : List (String × String)) : Except String Family :=
  match resp.filter (fun kv => kv.1 ∈ VersionCollector.LABEL_WHITELIST) with
  | [] => .error "ValueError: not enough values to unpack"
  | version => .ok { name := "pve_version_info",
                     labels := version.map Prod.fst,
                     samples := [⟨version.map (fun kv => RVal.str kv.2), .num 1⟩] }

/-- Claim C5: the emitted family carries exactly one sample of value 1,
its label set is exactly {release, repoid, version} intersected with the
response's keys (with the sample's label values aligned), and when that
intersection is empty the call raises instead of emitting. -/
theorem C5_version_label_whitelist :
    ∀ resp : List (String × String),
      ((∃ k ∈ resp.map Prod.fst, k ∈ VersionCollector.LABEL_WHITELIST) →
        ∃ fam, VersionCollector.collect resp = .ok fam ∧
          (∀ k, k ∈ fam.labels ↔
            k ∈ VersionCollector.LABEL_WHITELIST ∧ k ∈ resp.map Prod.fst) ∧
          ∃ s, fam.samples = [s] ∧ s.value = .num 1 ∧
            s.labels.length = fam.labels.length)
      ∧ ((∀ k ∈ resp.map Prod.fst, k ∉ VersionCollector.LABEL_WHITELIST) →
          ∃ msg, VersionCollector.collect resp = .error msg) := by
  intro resp
  constructor
  · intro hex
    have hne : resp.filter (fun kv => kv.1 ∈ VersionCollector.LABEL_WHITELIST) ≠ [] := by
      obtain ⟨k, hk, hwl⟩ := hex
      obtain ⟨kv, hkv, hfst⟩ := List.mem_map.mp hk
      intro hnil
      have : kv ∈ resp.filter (fun kv => kv.1 ∈ VersionCollector.LABEL_WHITELIST) :=
        List.mem_filter.mpr ⟨hkv, by simp [hfst, hwl]⟩
      rw [hnil] at this
      cases this
    unfold VersionCollector.collect
    rcases hv : resp.filter (fun kv => kv.1 ∈ VersionCollector.LABEL_WHITELIST) with
      _ | ⟨kv₀, rest⟩
    · exact absurd hv hne
    · rw [hv]
      refine ⟨_, rfl, ?_, ⟨_, rfl, rfl, by simp⟩⟩
      intro k
      rw [← hv]
      simp only [List.mem_map, List.mem_filter, decide_eq_true_eq]
      constructor
      · rintro ⟨kv, ⟨hmem, hwl⟩, rfl⟩
        exact ⟨hwl, kv, hmem, rfl⟩
      · rintro ⟨hwl, kv, hmem, rfl⟩
        exact ⟨kv, ⟨hmem, hwl⟩, rfl⟩
  · intro hall
    have hnil : resp.filter (fun kv => kv.1 ∈ VersionCollector.LABEL_WHITELIST) = [] := by
      rw [List.filter_eq_nil_iff]
      intro kv hkv
      simpa using hall kv.1 (List.mem_map_of_mem _ hkv)
    unfold VersionCollector.collect
    rw [hnil]
    exact ⟨_, rfl⟩

/-- Claim C5 instantiated: a response holding "version" and a non-listed
key yields the single label "version"; a response with no whitelisted key
raises. -/
theorem C5_witness :
    (∃ fam, VersionCollector.collect [("version", "4.4"), ("console", "html5")] = .ok fam ∧
      (∀ k, k ∈ fam.labels ↔
        k ∈ VersionCollector.LABEL_WHITELIST ∧
          k ∈ [("version", "4.4"), ("console", "html5")].map Prod.fst) ∧
      ∃ s, fam.samples = [s] ∧ s.value = .num 1 ∧
        s.labels.length = fam.labels.length)
    ∧ (∃ msg, VersionCollector.collect [("console", "html5")] = .error msg) :=
  ⟨(C5_version_label_whitelist [("version", "4.4"), ("console", "html5")]).1 (by decide),
   (C5_version_label_whitelist [("console", "html5")]).2 (by decide)⟩

/-! ## ClusterCustomMetricsCollector (collector.py lines 365-389)

`collect` reads the cluster options' `description` text and runs
`re.match(r'#+\\s*Prometheus metrics\\s*```(.*?)```', notes,
re.MULTILINE | re.DOTALL)`.  `re.match` anchors the pattern at position 0;
MULTILINE is inert because the pattern contains no `^`/`$`; DOTALL lets
the non-greedy group span newlines.  On a match, the captured block is
handed to the external exposition parser and the resulting families are
rewritten in place. -/

/-- The whitespace class of `\\s` for Python str patterns. -/
def pyWsChars : List Char :=
  [' ', '\t', '\n', '\r', '\x0B', '\x0C',
   '\x1C', '\x1D', '\x1E', '\x1F', '\x85', '\u00A0',
   '\u1680', '\u2000', '\u2001', '\u2002', '\u2003', '\u2004', '\u2005',
   '\u2006', '\u2007', '\u2008', '\u2009', '\u200A', '\u2028', '\u2029',
   '\u202F', '\u205F', '\u3000']

def isPyWs (c : Char) : Bool := pyWsChars.contains c

/-- The literal `Prometheus metrics` of the pattern. -/
def promLit : List Char := "Prometheus metrics".toList

/-- The literal triple-backtick fence of the pattern. -/
def fenceLit : List Char := "```".toList

/-- Strip an expected literal from the front of the input. -/
def stripLit : List Char → List Char → Option (List Char)
  | [], s => some s
  | _ :: _, [] => none
  | l :: ls, c :: cs => if c = l then stripLit ls cs else none

/-- The non-greedy `(.*?)` followed by the closing fence: at each position
the engine first tries to close the group, so the split happens at the
FIRST occurrence of the fence. -/
def splitAtFence : List Char → Option (List Char × List Char)
  | [] => none
  | c :: cs =>
    match stripLit fenceLit (c :: cs) with
    | some r => some ([], r)
    | none => (splitAtFence cs).map (fun gr => (c :: gr.1, gr.2))

/-- The greedy `#+`: at least one '#', then every further '#'. -/
def stripHashes (s : List Char) : Option (List Char) :=
  match s with
  | [] => none
  | c :: rest => if c = '#' then some (rest.dropWhile (fun c => c = '#')) else none

/-- The pattern up to (and including) the opening fence:  `#+` then `\\s*`
then the heading literal then `\\s*` then the fence.  Each greedy element
is deterministic here: the character required right after it ('P', a
backtick) can never be consumed by the element itself, so no backtracking
arises. -/
def headStrip (s : List Char) : Option (List Char) :=
  match stripHashes s with
  | none => none
  | some s₁ =>
    match stripLit promLit (s₁.dropWhile isPyWs) with
    | none => none
    | some s₃ => stripLit fenceLit (s₃.dropWhile isPyWs)

/-- Evaluation of the `re.match` call of line 375, returning `group(1)`. -/
def matchPrometheusNotes (s : List Char) : Option (List Char) :=
  match headStrip s with
  | none => none
  | some s₅ => (splitAtFence s₅).map Prod.fst

/-- A sample as produced by `text_string_to_metric_families`: the fields
of the prometheus_client `Sample` namedtuple the code touches. -/
structure PSample where
  name : String
  labels : List (String × String)
  value : RVal
  timestamp : Option Int
  exemplar : Option String
deriving DecidableEq, Repr

/-- A parsed metric family (the fields the code touches). -/
structure PMetric where
  name : String
  samples : List PSample
deriving DecidableEq, Repr

/-- Assignment into a string-valued Python dict (update in place or
append). -/
def dictSet (d : List (String × String)) (k v : String) : List (String × String) :=
  if (d.find? (fun kv => kv.1 = k)).isSome then
    d.map (fun kv => if kv.1 = k then (k, v) else kv)
  else d ++ [(k, v)]

/-- Python dict union `a | b`: `a`'s entries in order with values updated
from `b` on key collision, then `b`'s new keys in order. -/
def dictUnion (a b : List (String × String)) : List (String × String) :=
  b.foldl (fun acc kv => dictSet acc kv.1 kv.2) a

/-- Lookup in a string-valued dict. -/
def dictGet (d : List (String × String)) (k : String) : Option String :=
  (d.find? (fun kv => kv.1 = k)).map Prod.snd

/-- The rebuilt sample of lines 380-384: prefixed name, labels united with
the forced `__source` label, exemplar carried over, value unchanged (the
`timestamp` keyword is not passed, so it resets to none). -/
def transformSample (s : PSample) : PSample :=
  { name := "pve_" ++ s.name,
    labels := dictUnion s.labels [("__source", "Datacenter > Notes")],
    value := s.value,
    timestamp := none,
    exemplar := s.exemplar }

/-- The per-family rewrite of the loop body (lines 378-387). -/
def transformMetric (m : PMetric) : PMetric :=
  { name := "pve_" ++ m.name, samples := m.samples.map transformSample }

/-- `ClusterCustomMetricsCollector.collect` (lines 372-389), parametric in
the external exposition-text parsing function. -/
def ClusterCustomMetricsCollector.collect (notes : String)
    (parseFamilies : String → List PMetric) : List PMetric :=
  match matchPrometheusNotes notes.toList with
  | none => []
  | some g => (parseFamilies (String.mk g)).map transformMetric

/-- A decomposition of `s` witnessing that the heading+fence pattern of
the claim matches at position 0 with group `g`: one or more '#', optional
whitespace, the literal heading, optional whitespace, a fenced block. -/
def HeadingFenceAt (s g : List Char) : Prop :=
  ∃ hs w₁ w₂ rest,
    hs ≠ [] ∧ (∀ c ∈ hs, c = '#') ∧
    (∀ c ∈ w₁, isPyWs c = true) ∧ (∀ c ∈ w₂, isPyWs c = true) ∧
    s = hs ++ w₁ ++ promLit ++ w₂ ++ fenceLit ++ g ++ fenceLit ++ rest

/-- The first such pair (non-greedy): the group of shortest length. -/
def FirstBlockAt (s g : List Char) : Prop :=
  HeadingFenceAt s g ∧ ∀ g₂, HeadingFenceAt s g₂ → g.length ≤ g₂.length


/-! ### Correctness of the anchored pattern evaluation -/

lemma stripLit_iff (l : List Char) : ∀ (s r : List Char),
    stripLit l s = some r ↔ s = l ++ r := by
  induction l with
  | nil =>
    intro s r
    simp [stripLit]
  | cons c cs ih =>
    intro s r
    cases s with
    | nil => simp [stripLit]
    | cons a as =>
      by_cases h : a = c
      · subst h
        simp [stripLit, ih]
      · simp [stripLit, h]

lemma dropWhile_eq_self_of_head (p : Char → Bool) (l : List Char)
    (h : ∀ c l₁, l = c :: l₁ → p c = false) : l.dropWhile p = l := by
  cases l with
  | nil => rfl
  | cons c cs =>
    rw [List.dropWhile_cons, if_neg (by rw [h c cs rfl]; exact Bool.false_ne_true)]

lemma dropWhile_all_append (p : Char → Bool) (w t : List Char)
    (hw : ∀ c ∈ w, p c = true) (ht : t.dropWhile p = t) :
    (w ++ t).dropWhile p = t := by
  induction w with
  | nil => simpa using ht
  | cons c ws ih =>
    rw [List.cons_append, List.dropWhile_cons, if_pos (hw c (List.mem_cons_self _ _))]
    exact ih (fun c₁ h₁ => hw c₁ (List.mem_cons_of_mem _ h₁))

lemma dropWhile_exact (p : Char → Bool) (w t : List Char)
    (hw : ∀ c ∈ w, p c = true) (hhd : ∀ c l₁, t = c :: l₁ → p c = false) :
    (w ++ t).dropWhile p = t :=
  dropWhile_all_append p w t hw (dropWhile_eq_self_of_head p t hhd)

lemma pyWs_ne_hash {c : Char} (h : isPyWs c = true) : decide (c = '#') = false := by
  rcases eq_or_ne c '#' with rfl | hne
  · exact absurd h (by decide)
  · simp [hne]

lemma dropWhile_idem (p : Char → Bool) (l : List Char) :
    (l.dropWhile p).dropWhile p = l.dropWhile p := by
  induction l with
  | nil => rfl
  | cons c cs ih =>
    by_cases hp : p c = true
    · rw [List.dropWhile_cons, if_pos hp]
      exact ih
    · rw [List.dropWhile_cons, if_neg hp, List.dropWhile_cons, if_neg hp]

lemma stripHashes_sound (s t : List Char) (h : stripHashes s = some t) :
    ∃ hs, hs ≠ [] ∧ (∀ c ∈ hs, c = '#') ∧ s = hs ++ t := by
  cases s with
  | nil => simp [stripHashes] at h
  | cons c rest =>
    simp only [stripHashes] at h
    by_cases hc : c = '#'
    · rw [if_pos hc] at h
      obtain rfl : rest.dropWhile (fun c => decide (c = '#')) = t := by
        injection h
      refine ⟨c :: rest.takeWhile (fun c => decide (c = '#')), by simp, ?_, ?_⟩
      · intro c₁ h₁
        rcases List.mem_cons.mp h₁ with rfl | h₁
        · exact hc
        · have h₂ := List.mem_takeWhile_imp h₁
          simpa using h₂
      · rw [List.cons_append, List.takeWhile_append_dropWhile]
    · rw [if_neg hc] at h
      cases h

lemma stripHashes_complete (hs t : List Char) (hne : hs ≠ [])
    (hhash : ∀ c ∈ hs, c = '#')
    (hhd : ∀ c l₁, t = c :: l₁ → decide (c = '#') = false) :
    stripHashes (hs ++ t) = some t := by
  cases hs with
  | nil => exact absurd rfl hne
  | cons c hs₁ =>
    have hc : c = '#' := hhash c (List.mem_cons_self _ _)
    simp only [List.cons_append, stripHashes]
    rw [if_pos hc]
    exact congrArg some (dropWhile_exact _ hs₁ t
      (fun c₁ h₁ => by simp [hhash c₁ (List.mem_cons_of_mem _ h₁)]) hhd)

lemma promLit_cons : promLit = 'P' :: "rometheus metrics".toList := rfl

lemma fenceLit_cons : fenceLit = '`' :: "``".toList := rfl

lemma promLit_head_not_hash :
    ∀ (X : List Char) (c : Char) (l₁ : List Char),
      promLit ++ X = c :: l₁ → decide (c = '#') = false := by
  intro X c l₁ hl
  rw [promLit_cons, List.cons_append] at hl
  obtain ⟨rfl, -⟩ := List.cons.inj hl
  decide

lemma promLit_head_not_ws :
    ∀ (X : List Char) (c : Char) (l₁ : List Char),
      promLit ++ X = c :: l₁ → isPyWs c = false := by
  intro X c l₁ hl
  rw [promLit_cons, List.cons_append] at hl
  obtain ⟨rfl, -⟩ := List.cons.inj hl
  decide

lemma fenceLit_head_not_ws :
    ∀ (X : List Char) (c : Char) (l₁ : List Char),
      fenceLit ++ X = c :: l₁ → isPyWs c = false := by
  intro X c l₁ hl
  rw [fenceLit_cons, List.cons_append] at hl
  obtain ⟨rfl, -⟩ := List.cons.inj hl
  decide

lemma headStrip_complete (s g : List Char) (h : HeadingFenceAt s g) :
    ∃ rest, headStrip s = some (g ++ fenceLit ++ rest) := by
  obtain ⟨hs, w₁, w₂, rest, hne, hhash, hw₁, hw₂, heq⟩ := h
  refine ⟨rest, ?_⟩
  have heq₁ : s = hs ++
      (w₁ ++ (promLit ++ (w₂ ++ (fenceLit ++ (g ++ (fenceLit ++ rest)))))) := by
    rw [heq]
    simp [List.append_assoc]
  subst heq₁
  have h₁ : stripHashes (hs ++ (w₁ ++ (promLit ++ (w₂ ++ (fenceLit ++ (g ++ (fenceLit ++ rest))))))) =
      some (w₁ ++ (promLit ++ (w₂ ++ (fenceLit ++ (g ++ (fenceLit ++ rest)))))) := by
    apply stripHashes_complete _ _ hne hhash
    intro c l₁ hl
    cases w₁ with
    | nil =>
      rw [List.nil_append] at hl
      exact promLit_head_not_hash _ c l₁ hl
    | cons a w₁' =>
      rw [List.cons_append] at hl
      obtain ⟨rfl, -⟩ := List.cons.inj hl
      exact pyWs_ne_hash (hw₁ a (List.mem_cons_self _ _))
  have h₂ : (w₁ ++ (promLit ++ (w₂ ++ (fenceLit ++ (g ++ (fenceLit ++ rest)))))).dropWhile isPyWs =
      promLit ++ (w₂ ++ (fenceLit ++ (g ++ (fenceLit ++ rest)))) := by
    apply dropWhile_exact _ _ _ hw₁
    intro c l₁ hl
    exact promLit_head_not_ws _ c l₁ hl
  have h₃ : stripLit promLit (promLit ++ (w₂ ++ (fenceLit ++ (g ++ (fenceLit ++ rest))))) =
      some (w₂ ++ (fenceLit ++ (g ++ (fenceLit ++ rest)))) :=
    (stripLit_iff _ _ _).mpr rfl
  have h₄ : (w₂ ++ (fenceLit ++ (g ++ (fenceLit ++ rest)))).dropWhile isPyWs =
      fenceLit ++ (g ++ (fenceLit ++ rest)) := by
    apply dropWhile_exact _ _ _ hw₂
    intro c l₁ hl
    exact fenceLit_head_not_ws _ c l₁ hl
  have h₅ : stripLit fenceLit (fenceLit ++ (g ++ (fenceLit ++ rest))) =
      some (g ++ (fenceLit ++ rest)) :=
    (stripLit_iff _ _ _).mpr rfl
  unfold headStrip
  rw [h₁]
  dsimp only
  rw [h₂, h₃]
  dsimp only
  rw [h₄, h₅]
  simp [List.append_assoc]

lemma headStrip_sound (s s₅ : List Char) (h : headStrip s = some s₅) :
    ∃ hs w₁ w₂, hs ≠ [] ∧ (∀ c ∈ hs, c = '#') ∧
      (∀ c ∈ w₁, isPyWs c = true) ∧ (∀ c ∈ w₂, isPyWs c = true) ∧
      s = hs ++ w₁ ++ promLit ++ w₂ ++ fenceLit ++ s₅ := by
  unfold headStrip at h
  rcases hh : stripHashes s with _ | s₁
  · rw [hh] at h
    cases h
  · rw [hh] at h
    dsimp only at h
    rcases hp : stripLit promLit (s₁.dropWhile isPyWs) with _ | s₃
    · rw [hp] at h
      cases h
    · rw [hp] at h
      dsimp only at h
      obtain ⟨hs, hne, hhash, hseq⟩ := stripHashes_sound s s₁ hh
      have hs₁ : s₁ = s₁.takeWhile isPyWs ++ s₁.dropWhile isPyWs :=
        (List.takeWhile_append_dropWhile _ _).symm
      have hs₂ : s₁.dropWhile isPyWs = promLit ++ s₃ := (stripLit_iff _ _ _).mp hp
      have hs₃ : s₃ = s₃.takeWhile isPyWs ++ s₃.dropWhile isPyWs :=
        (List.takeWhile_append_dropWhile _ _).symm
      have hs₄ : s₃.dropWhile isPyWs = fenceLit ++ s₅ := (stripLit_iff _ _ _).mp h
      refine ⟨hs, s₁.takeWhile isPyWs, s₃.takeWhile isPyWs, hne, hhash,
        fun c h₁ => List.mem_takeWhile_imp h₁,
        fun c h₁ => List.mem_takeWhile_imp h₁, ?_⟩
      conv_lhs => rw [hseq, hs₁, hs₂, hs₃, hs₄]
      simp [List.append_assoc]

lemma splitAtFence_sound : ∀ (s g r : List Char), splitAtFence s = some (g, r) →
    s = g ++ fenceLit ++ r ∧ ∀ g₂ r₂, s = g₂ ++ fenceLit ++ r₂ → g.length ≤ g₂.length := by
  intro s
  induction s with
  | nil =>
    intro g r h
    simp [splitAtFence] at h
  | cons c cs ih =>
    intro g r h
    simp only [splitAtFence] at h
    rcases hstrip : stripLit fenceLit (c :: cs) with _ | r₀
    · rw [hstrip] at h
      dsimp only at h
      rcases hsf : splitAtFence cs with _ | gr
      · rw [hsf] at h
        cases h
      · rw [hsf] at h
        simp only [Option.map] at h
        have hinj := Option.some.inj h
        obtain ⟨rfl, rfl⟩ : c :: gr.1 = g ∧ gr.2 = r :=
          ⟨congrArg Prod.fst hinj, congrArg Prod.snd hinj⟩
        obtain ⟨heq, hmin⟩ := ih gr.1 gr.2 (by rw [hsf])
        constructor
        · simp only [List.cons_append]
          exact congrArg (List.cons c) heq
        · intro g₂ r₂ h₂
          cases g₂ with
          | nil =>
            exfalso
            rw [List.nil_append] at h₂
            have hcontra : stripLit fenceLit (c :: cs) = some r₂ :=
              (stripLit_iff _ _ _).mpr h₂
            rw [hstrip] at hcontra
            cases hcontra
          | cons c₂ g₂' =>
            simp only [List.cons_append] at h₂
            obtain ⟨-, h₂'⟩ := List.cons.inj h₂
            simp only [List.length_cons]
            exact Nat.succ_le_succ (hmin g₂' r₂ h₂')
    · rw [hstrip] at h
      dsimp only at h
      have hinj := Option.some.inj h
      obtain ⟨rfl, rfl⟩ : ([] : List Char) = g ∧ r₀ = r :=
        ⟨congrArg Prod.fst hinj, congrArg Prod.snd hinj⟩
      constructor
      · simpa using (stripLit_iff _ _ _).mp hstrip
      · intro g₂ r₂ _
        exact Nat.zero_le _

lemma splitAtFence_complete : ∀ (g r s : List Char), s = g ++ fenceLit ++ r →
    ∃ gr, splitAtFence s = some gr := by
  intro g
  induction g with
  | nil =>
    intro r s h
    rw [List.nil_append] at h
    subst h
    refine ⟨([], r), ?_⟩
    have hstrip : stripLit fenceLit ('`' :: ("``".toList ++ r)) = some r := by
      rw [← List.cons_append, ← fenceLit_cons]
      exact (stripLit_iff _ _ _).mpr rfl
    rw [fenceLit_cons, List.cons_append]
    simp only [splitAtFence]
    rw [hstrip]
  | cons c g' ih =>
    intro r s h
    subst h
    simp only [List.cons_append]
    simp only [splitAtFence]
    rcases hstrip : stripLit fenceLit (c :: (g' ++ fenceLit ++ r)) with _ | r₀
    · dsimp only
      obtain ⟨gr, hgr⟩ := ih r (g' ++ fenceLit ++ r) rfl
      exact ⟨(c :: gr.1, gr.2), by rw [hgr]; rfl⟩
    · dsimp only
      exact ⟨([], r₀), rfl⟩

lemma match_sound (s g : List Char) (h : matchPrometheusNotes s = some g) :
    FirstBlockAt s g := by
  unfold matchPrometheusNotes at h
  rcases hh : headStrip s with _ | s₅
  · rw [hh] at h
    cases h
  · rw [hh] at h
    dsimp only at h
    rcases hsf : splitAtFence s₅ with _ | gr
    · rw [hsf] at h
      cases h
    · rw [hsf] at h
      simp only [Option.map] at h
      obtain rfl : gr.1 = g := Option.some.inj h
      obtain ⟨heq, hmin⟩ := splitAtFence_sound s₅ gr.1 gr.2 (by rw [hsf])
      obtain ⟨hs, w₁, w₂, hne, hhash, hw₁, hw₂, hseq⟩ := headStrip_sound s s₅ hh
      constructor
      · refine ⟨hs, w₁, w₂, gr.2, hne, hhash, hw₁, hw₂, ?_⟩
        rw [hseq, heq]
        simp [List.append_assoc]
      · intro g₂ hg₂
        obtain ⟨rest₂, hrest₂⟩ := headStrip_complete s g₂ hg₂
        rw [hh] at hrest₂
        exact hmin g₂ rest₂ (Option.some.inj hrest₂)

lemma match_complete (s g : List Char) (h : HeadingFenceAt s g) :
    ∃ g₀, matchPrometheusNotes s = some g₀ := by
  obtain ⟨rest, hr⟩ := headStrip_complete s g h
  obtain ⟨gr, hsf⟩ := splitAtFence_complete g rest (g ++ fenceLit ++ rest) rfl
  refine ⟨gr.1, ?_⟩
  unfold matchPrometheusNotes
  rw [hr]
  dsimp only
  rw [hsf]
  rfl

lemma match_none_no_block (s : List Char) (h : matchPrometheusNotes s = none) :
    ¬ ∃ g, HeadingFenceAt s g := by
  rintro ⟨g, hg⟩
  obtain ⟨g₀, h₀⟩ := match_complete s g hg
  rw [h] at h₀
  cases h₀

lemma match_first (s g : List Char) (h : FirstBlockAt s g) :
    matchPrometheusNotes s = some g := by
  obtain ⟨g₀, h₀⟩ := match_complete s g h.1
  have hfb₀ := match_sound s g₀ h₀
  have hlen : g.length = g₀.length :=
    le_antisymm (h.2 g₀ hfb₀.1) (hfb₀.2 g h.1)
  obtain ⟨rest, hr⟩ := headStrip_complete s g h.1
  obtain ⟨rest₀, hr₀⟩ := headStrip_complete s g₀ hfb₀.1
  rw [hr] at hr₀
  have heq : g ++ (fenceLit ++ rest) = g₀ ++ (fenceLit ++ rest₀) := by
    have := Option.some.inj hr₀
    simpa [List.append_assoc] using this
  obtain rfl : g = g₀ := (List.append_inj heq hlen).1
  exact h₀

/-! ### Label-dict lemmas and the custom-metrics theorems -/

lemma find?_append_of_none {α : Type} (p : α → Bool) (l₁ l₂ : List α)
    (h : l₁.find? p = none) : (l₁ ++ l₂).find? p = l₂.find? p := by
  induction l₁ with
  | nil => rfl
  | cons a l ih =>
    by_cases hp : p a = true
    · rw [List.find?_cons_of_pos _ hp] at h
      cases h
    · rw [List.find?_cons_of_neg _ hp] at h
      rw [List.cons_append, List.find?_cons_of_neg _ hp]
      exact ih h

lemma find?_append_of_some {α : Type} (p : α → Bool) (l₁ l₂ : List α) (x : α)
    (h : l₁.find? p = some x) : (l₁ ++ l₂).find? p = some x := by
  induction l₁ with
  | nil => cases h
  | cons a l ih =>
    by_cases hp : p a = true
    · rw [List.find?_cons_of_pos _ hp] at h
      rw [List.cons_append, List.find?_cons_of_pos _ hp]
      exact h
    · rw [List.find?_cons_of_neg _ hp] at h
      rw [List.cons_append, List.find?_cons_of_neg _ hp]
      exact ih h

lemma find_map_update_ne (d : List (String × String)) (k v k₂ : String) (h : k₂ ≠ k) :
    (d.map (fun kv => if kv.1 = k then (k, v) else kv)).find? (fun kv => kv.1 = k₂) =
      d.find? (fun kv => kv.1 = k₂) := by
  induction d with
  | nil => rfl
  | cons kv₀ rest ih =>
    by_cases hk : kv₀.1 = k
    · rw [List.map_cons, if_pos hk,
        List.find?_cons_of_neg _ (by simp [Ne.symm h]),
        List.find?_cons_of_neg _ (by simp [hk, Ne.symm h])]
      exact ih
    · rw [List.map_cons, if_neg hk]
      by_cases hp : kv₀.1 = k₂
      · rw [List.find?_cons_of_pos _ (by simp [hp]), List.find?_cons_of_pos _ (by simp [hp])]
      · rw [List.find?_cons_of_neg _ (by simp [hp]), List.find?_cons_of_neg _ (by simp [hp])]
        exact ih

lemma find_map_update_same (d : List (String × String)) (k v : String)
    (h : (d.find? (fun kv => kv.1 = k)).isSome = true) :
    (d.map (fun kv => if kv.1 = k then (k, v) else kv)).find? (fun kv => kv.1 = k) =
      some (k, v) := by
  induction d with
  | nil => simp [List.find?] at h
  | cons kv₀ rest ih =>
    by_cases hk : kv₀.1 = k
    · rw [List.map_cons, if_pos hk, List.find?_cons_of_pos _ (by simp)]
    · rw [List.map_cons, if_neg hk, List.find?_cons_of_neg _ (by simp [hk])]
      apply ih
      rw [List.find?_cons_of_neg _ (by simp [hk])] at h
      exact h

lemma dictGet_dictSet_same (d : List (String × String)) (k v : String) :
    dictGet (dictSet d k v) k = some v := by
  unfold dictSet dictGet
  by_cases h : (d.find? (fun kv => kv.1 = k)).isSome = true
  · rw [if_pos h, find_map_update_same d k v h]
    rfl
  · rw [if_neg h]
    have hnone : d.find? (fun kv => kv.1 = k) = none := by
      rcases hfind : d.find? (fun kv => kv.1 = k) with _ | x
      · exact hfind
      · rw [hfind] at h
        simp at h
    rw [find?_append_of_none _ d _ hnone]
    simp [List.find?]

lemma dictGet_dictSet_ne (d : List (String × String)) (k v k₂ : String) (h : k₂ ≠ k) :
    dictGet (dictSet d k v) k₂ = dictGet d k₂ := by
  unfold dictSet dictGet
  by_cases hs : (d.find? (fun kv => kv.1 = k)).isSome = true
  · rw [if_pos hs, find_map_update_ne d k v k₂ h]
  · rw [if_neg hs]
    rcases hfind : d.find? (fun kv => kv.1 = k₂) with _ | x
    · rw [find?_append_of_none _ d _ hfind, hfind]
      have hne : decide ((k, v).1 = k₂) = false := by simp [Ne.symm h]
      simp [List.find?, hne]
    · rw [find?_append_of_some _ d _ x hfind, hfind]

lemma dictUnion_single (d : List (String × String)) (k v : String) :
    dictUnion d [(k, v)] = dictSet d k v := rfl

/-- Claim C3 (amended): the heading+fence pattern is anchored at position 0
by `re.match`.  When the notes text BEGINS with such a pair, the first one
(non-greedy: shortest group) determines the block handed to the parser;
when no pair matches at the very start of the text, no family is emitted. -/
theorem C3_notes_block_anchored :
    ∀ (notes : String) (parseFamilies : String → List PMetric),
      (∀ g, FirstBlockAt notes.toList g →
        ClusterCustomMetricsCollector.collect notes parseFamilies =
          (parseFamilies (String.mk g)).map transformMetric)
      ∧ ((¬ ∃ g, HeadingFenceAt notes.toList g) →
          ClusterCustomMetricsCollector.collect notes parseFamilies = []) := by
  intro notes parseFamilies
  constructor
  · intro g hg
    unfold ClusterCustomMetricsCollector.collect
    rw [match_first notes.toList g hg]
  · intro hno
    unfold ClusterCustomMetricsCollector.collect
    rcases hm : matchPrometheusNotes notes.toList with _ | g
    · rfl
    · exact absurd ⟨g, (match_sound _ _ hm).1⟩ hno

/-- Claim C3 counterexample: this notes text contains a heading+fence pair
— witnessed by a decomposition of the text after dropping its first
character — yet the collector emits nothing, because `re.match` anchors
the pattern at position 0; "anywhere in the text" is wrong. -/
theorem C3_counterexample :
    (∃ g, HeadingFenceAt ("x## Prometheus metrics ```m 1```".toList.drop 1) g)
    ∧ ClusterCustomMetricsCollector.collect "x## Prometheus metrics ```m 1```"
        (fun s => [⟨s, []⟩]) = []
    ∧ ([(⟨"m 1", []⟩ : PMetric)]).map transformMetric ≠ [] := by
  refine ⟨⟨"m 1".toList, "##".toList, [' '], [' '], [], ?_, ?_, ?_, ?_, ?_⟩, ?_, ?_⟩
  · decide
  · decide
  · decide
  · decide
  · decide
  · rfl
  · decide

/-- Claim C3 instantiated: a notes text beginning with the pair yields the
block's families; a plain text yields none. -/
theorem C3_witness :
    ClusterCustomMetricsCollector.collect "## Prometheus metrics ```a 1```"
        (fun s => [⟨s, []⟩]) = [⟨"pve_a 1", []⟩]
    ∧ ClusterCustomMetricsCollector.collect "plain notes" (fun s => [⟨s, []⟩]) = [] :=
  ⟨(C3_notes_block_anchored "## Prometheus metrics ```a 1```" (fun s => [⟨s, []⟩])).1
      "a 1".toList (match_sound _ _ (by decide)),
   (C3_notes_block_anchored "plain notes" (fun s => [⟨s, []⟩])).2
      (match_none_no_block _ (by decide))⟩

/-- Claim C8: when a metrics block is found, the collector output is the
parsed families rewritten: family name and every sample name prefixed with
`pve_`, each sample's labels merged with the forced
`__source = "Datacenter > Notes"` label — which overrides a pre-existing
`__source` and leaves every other key unchanged — and each sample's value
untouched. -/
theorem C8_custom_metrics_transform :
    ∀ (notes : String) (parseFamilies : String → List PMetric) (g : List Char),
      matchPrometheusNotes notes.toList = some g →
      (ClusterCustomMetricsCollector.collect notes parseFamilies =
        (parseFamilies (String.mk g)).map transformMetric)
      ∧ ∀ m ∈ parseFamilies (String.mk g),
          (transformMetric m).name = "pve_" ++ m.name
          ∧ (transformMetric m).samples = m.samples.map transformSample
          ∧ ∀ smp ∈ m.samples,
              (transformSample smp).name = "pve_" ++ smp.name
              ∧ (transformSample smp).value = smp.value
              ∧ dictGet (transformSample smp).labels "__source" =
                  some "Datacenter > Notes"
              ∧ ∀ k, k ≠ "__source" →
                  dictGet (transformSample smp).labels k = dictGet smp.labels k := by
  intro notes parseFamilies g h
  constructor
  · unfold ClusterCustomMetricsCollector.collect
    rw [h]
  · intro m _
    refine ⟨rfl, rfl, ?_⟩
    intro smp _
    refine ⟨rfl, rfl, ?_, ?_⟩
    · show dictGet (dictUnion smp.labels [("__source", "Datacenter > Notes")]) "__source" = _
      rw [dictUnion_single, dictGet_dictSet_same]
    · intro k hk
      show dictGet (dictUnion smp.labels [("__source", "Datacenter > Notes")]) k = _
      rw [dictUnion_single, dictGet_dictSet_ne _ _ _ _ hk]

/-- Claim C8 instantiated: a parsed family `up` with one sample carrying a
stale `__source` label comes out as `pve_up`, with the label overridden
and the value kept. -/
theorem C8_witness :
    ClusterCustomMetricsCollector.collect "# Prometheus metrics ```foo 1```"
        (fun _ => [⟨"up", [⟨"up", [("a", "1"), ("__source", "old")], .num 5, some 3, none⟩]⟩]) =
      [⟨"pve_up", [⟨"pve_up", [("a", "1"), ("__source", "Datacenter > Notes")],
        .num 5, none, none⟩]⟩] := by
  have h := (C8_custom_metrics_transform "# Prometheus metrics ```foo 1```"
    (fun _ => [⟨"up", [⟨"up", [("a", "1"), ("__source", "old")], .num 5, some 3, none⟩]⟩])
    "foo 1".toList (by decide)).1
  rw [h]
  decide

/-! ## ClusterResourcesCollector (collector.py lines 162-262)

`collect` pre-declares 12 per-field gauge families (the `metrics` dict,
lines 172-221) and 2 info families (lines 223-232), then walks every
cluster resource record once, feeding an info pass (lines 252-254) and a
metric pass (lines 256-260), and finally returns
`chain(metrics.values(), info_metrics.values())` — all 14 families in
dict insertion order, populated or not. -/

/-- One pre-declared family: its dict key, family name and declared label
names. -/
structure FamDecl where
  key : String
  name : String
  labels : List String
deriving DecidableEq, Repr

/-- The `metrics` dict (lines 172-221), in insertion order. -/
def metricFams : List FamDecl :=
  [⟨"maxdisk", "pve_disk_size_bytes", ["id", "type", "storage", "node"]⟩,
   ⟨"disk", "pve_disk_usage_bytes", ["id"]⟩,
   ⟨"maxmem", "pve_memory_size_bytes", ["id", "node", "type"]⟩,
   ⟨"mem", "pve_memory_usage_bytes", ["id", "node", "type"]⟩,
   ⟨"netout", "pve_network_transmit_bytes", ["id"]⟩,
   ⟨"netin", "pve_network_receive_bytes", ["id"]⟩,
   ⟨"diskwrite", "pve_disk_write_bytes", ["id"]⟩,
   ⟨"diskread", "pve_disk_read_bytes", ["id"]⟩,
   ⟨"cpu", "pve_cpu_usage_ratio", ["id", "node", "type"]⟩,
   ⟨"maxcpu", "pve_cpu_usage_limit", ["id", "node", "type"]⟩,
   ⟨"uptime", "pve_uptime_seconds", ["id"]⟩,
   ⟨"shared", "pve_storage_shared", ["id"]⟩]

/-- The `info_metrics` dict (lines 223-232), in insertion order. -/
def infoFams : List FamDecl :=
  [⟨"guest", "pve_guest_info", ["id", "node", "name", "type"]⟩,
   ⟨"storage", "pve_storage_info", ["id", "node", "storage"]⟩]

/-- The `info_lookup` dispatch (lines 234-247): resource type to target
info family and its type-specific label list. -/
def infoLookup (restype : String) : Option FamDecl :=
  if restype = "lxc" then some ⟨"guest", "pve_guest_info", ["id", "node", "name", "type"]⟩
  else if restype = "qemu" then some ⟨"guest", "pve_guest_info", ["id", "node", "name", "type"]⟩
  else if restype = "storage" then some ⟨"storage", "pve_storage_info", ["id", "node", "storage"]⟩
  else none

/-- The mutable sample lists of the pre-declared families, keyed by their
dict key. -/
def Tbl : Type := List (String × List Sample)

/-- `family.add_metric(label_values, value)` on the family stored at `k`. -/
def addSample (tbl : Tbl) (k : String) (s : Sample) : Tbl :=
  tbl.map (fun kv => if kv.1 = k then (kv.1, kv.2 ++ [s]) else kv)

/-- The samples accumulated for key `k`. -/
def lookupSamples (tbl : Tbl) (k : String) : List Sample :=
  ((tbl.find? (fun kv => kv.1 = k)).map Prod.snd).getD []

/-- `key in metrics` together with the family's declaration (line 257). -/
def findFamDecl (k : String) : Option FamDecl :=
  metricFams.find? (fun f => f.key = k)

/-- The info pass (lines 252-254): if the record type is in `info_lookup`,
add one sample of value 1 whose label values are `resource.get(key, '')`
over the declared labels — an absent label yields the empty string. -/
def infoPass (res : List (String × RVal)) (tbl : Tbl) (restype : RVal) : Tbl :=
  match restype with
  | .str t =>
    match infoLookup t with
    | some fd =>
      addSample tbl fd.key
        ⟨fd.labels.map (fun l => (pyLookup res l).getD (.str "")), .num 1⟩
    | none => tbl
  | _ => tbl

/-- The metric pass (lines 256-260): for each record field in the
`metrics` allow-list, add one sample whose label values are
`[resource[l] for l in labelnames if l in resource]` — absent declared
labels are omitted entirely. -/
def metricLoop (res : List (String × RVal)) (pairs : List (String × RVal)) (tbl : Tbl) : Tbl :=
  match pairs with
  | [] => tbl
  | (k, v) :: rest =>
    match findFamDecl k with
    | some fd =>
      metricLoop res rest
        (addSample tbl k ⟨fd.labels.filterMap (fun l => pyLookup res l), v⟩)
    | none => metricLoop res rest tbl

/-- One iteration of `for resource in self._pve.cluster.resources.get():`
(lines 249-260); `resource['type']` raises a KeyError when absent. -/
def resourceStep (tbl : Tbl) (res : List (String × RVal)) : Except String Tbl :=
  match pyLookup res "type" with
  | none => .error "KeyError: type"
  | some restype => .ok (metricLoop res res (infoPass res tbl restype))

def resourcesLoop (rs : List (List (String × RVal))) (tbl : Tbl) : Except String Tbl :=
  match rs with
  | [] => .ok tbl
  | r :: rest =>
    match resourceStep tbl r with
    | .error e => .error e
    | .ok tbl₁ => resourcesLoop rest tbl₁

/-- The initial table: every declared family starts with no samples. -/
def tblInit : Tbl := (metricFams ++ infoFams).map (fun f => (f.key, ([] : List Sample)))

/-- `ClusterResourcesCollector.collect` (lines 171-262): returns ALL 14
pre-declared families, in dict order, whether or not they gathered
samples. -/
def ClusterResourcesCollector.collect (resources : List (List (String × RVal))) :
    Except String (List Family) :=
  match resourcesLoop resources tblInit with
  | .error e => .error e
  | .ok tbl =>
    .ok ((metricFams ++ infoFams).map (fun f =>
      { name := f.name, labels := f.labels, samples := lookupSamples tbl f.key }))

/-! ## ClusterNodeCollector (lines 95-122) and ClusterInfoCollector (lines 124-160) -/

/-- The list comprehension `[entry for entry in status if entry['type'] == t]`;
a missing `type` key raises. -/
def filterByType (t : String) (status : List (List (String × RVal))) :
    Except String (List (List (String × RVal))) :=
  match status with
  | [] => .ok []
  | e :: rest =>
    match pyLookup e "type" with
    | none => .error "KeyError: type"
    | some v =>
      match filterByType t rest with
      | .error err => .error err
      | .ok rest₁ => .ok (if v = .str t then e :: rest₁ else rest₁)

/-- `[str(entry[k]) for k in labels]`, raising on a missing key. -/
def labelValuesOf (labels : List String) (e : List (String × RVal)) :
    Except String (List RVal) :=
  labels.mapM (fun k =>
    match pyLookup e k with
    | some v => Except.ok (RVal.str v.pyStr)
    | none => Except.error ("KeyError: " ++ k))

/-- `ClusterNodeCollector.collect` (lines 108-122): yields the
`pve_node_info` family only when at least one node entry exists. -/
def ClusterNodeCollector.collect (status : List (List (String × RVal))) :
    Except String (List Family) :=
  match filterByType "node" status with
  | .error e => .error e
  | .ok nodes =>
    if nodes = [] then .ok []
    else
      match nodes.mapM (labelValuesOf ["id", "level", "name", "nodeid"]) with
      | .error e => .error e
      | .ok valss =>
        .ok [{ name := "pve_node_info",
               labels := ["id", "level", "name", "nodeid"],
               samples := valss.map (fun vals => ⟨vals, .num 1⟩) }]

/-- The per-cluster rewrite of lines 144-147: derive
`id = "cluster/" + name` (reading `name` raises when absent or not a
string, as `'{:s}'.format` does) and drop the `name` key. -/
def transformCluster (c : List (String × RVal)) : Except String (List (String × RVal)) :=
  match pyLookup c "name" with
  | some (.str nm) => .ok (pyDelete (pySet c "id" (.str ("cluster/" ++ nm))) "name")
  | some _ => .error "TypeError: format requires str"
  | none => .error "KeyError: name"

/-- `ClusterInfoCollector.collect` (lines 136-160): yields the
`pve_cluster_info` family only when at least one cluster entry exists;
labels come from the first remaining record's keys in order. -/
def ClusterInfoCollector.collect (status : List (List (String × RVal))) :
    Except String (List Family) :=
  match filterByType "cluster" status with
  | .error e => .error e
  | .ok clusters =>
    if clusters = [] then .ok []
    else
      match (clusters.map (fun c => pyDelete c "type")).mapM transformCluster with
      | .error e => .error e
      | .ok clusters₂ =>
        match clusters₂ with
        | [] => .ok []
        | c₀ :: _ =>
          match clusters₂.mapM (labelValuesOf (c₀.map Prod.fst)) with
          | .error e => .error e
          | .ok valss =>
            .ok [{ name := "pve_cluster_info",
                   labels := c₀.map Prod.fst,
                   samples := valss.map (fun vals => ⟨vals, .num 1⟩) }]

lemma resourcesLoop_ok (rs : List (List (String × RVal))) (tbl : Tbl)
    (h : ∀ r ∈ rs, (pyLookup r "type").isSome = true) :
    ∃ tbl₁, resourcesLoop rs tbl = .ok tbl₁ := by
  induction rs generalizing tbl with
  | nil => exact ⟨tbl, rfl⟩
  | cons r rest ih =>
    have hr := h r (List.mem_cons_self _ _)
    rcases hty : pyLookup r "type" with _ | v
    · rw [hty] at hr
      simp at hr
    · simp only [resourcesLoop, resourceStep]
      rw [hty]
      exact ih _ (fun r₁ h₁ => h r₁ (List.mem_cons_of_mem _ h₁))

/-- Claim C7: `ClusterResourcesCollector.collect` always returns the 12
pre-declared per-field metric families plus the 2 info families — 14
families in dict order, empty ones included — whereas
`ClusterNodeCollector` and `ClusterInfoCollector` yield no family at all
when no matching status entry exists. -/
theorem C7_fixed_family_set :
    (∀ resources : List (List (String × RVal)),
      (∀ r ∈ resources, (pyLookup r "type").isSome = true) →
      ∃ fams, ClusterResourcesCollector.collect resources = .ok fams ∧
        fams.map Family.name =
          ["pve_disk_size_bytes", "pve_disk_usage_bytes", "pve_memory_size_bytes",
           "pve_memory_usage_bytes", "pve_network_transmit_bytes",
           "pve_network_receive_bytes", "pve_disk_write_bytes",
           "pve_disk_read_bytes", "pve_cpu_usage_ratio", "pve_cpu_usage_limit",
           "pve_uptime_seconds", "pve_storage_shared", "pve_guest_info",
           "pve_storage_info"] ∧
        fams.length = 14)
    ∧ (∀ status, filterByType "node" status = .ok [] →
        ClusterNodeCollector.collect status = .ok [])
    ∧ (∀ status, filterByType "cluster" status = .ok [] →
        ClusterInfoCollector.collect status = .ok []) := by
  refine ⟨?_, ?_, ?_⟩
  · intro resources h
    obtain ⟨tbl, htbl⟩ := resourcesLoop_ok resources tblInit h
    unfold ClusterResourcesCollector.collect
    rw [htbl]
    exact ⟨_, rfl, rfl, rfl⟩
  · intro status h
    unfold ClusterNodeCollector.collect
    rw [h]
    rfl
  · intro status h
    unfold ClusterInfoCollector.collect
    rw [h]
    rfl

/-- Claim C7 instantiated: a lone qemu resource still yields all 14
families; a status listing with no node (resp. no cluster) entry yields no
family from the node (resp. info) collector. -/
theorem C7_witness :
    (∃ fams,
      ClusterResourcesCollector.collect [[("type", .str "qemu"), ("id", .str "qemu/100")]] =
        .ok fams ∧
      fams.map Family.name =
        ["pve_disk_size_bytes", "pve_disk_usage_bytes", "pve_memory_size_bytes",
         "pve_memory_usage_bytes", "pve_network_transmit_bytes",
         "pve_network_receive_bytes", "pve_disk_write_bytes",
         "pve_disk_read_bytes", "pve_cpu_usage_ratio", "pve_cpu_usage_limit",
         "pve_uptime_seconds", "pve_storage_shared", "pve_guest_info",
         "pve_storage_info"] ∧
      fams.length = 14)
    ∧ ClusterNodeCollector.collect [[("type", .str "cluster"), ("name", .str "pvec")]] =
        .ok []
    ∧ ClusterInfoCollector.collect [[("type", .str "node"), ("id", .str "node/pve1")]] =
        .ok [] :=
  ⟨C7_fixed_family_set.1 [[("type", .str "qemu"), ("id", .str "qemu/100")]] (by decide),
   C7_fixed_family_set.2.1 [[("type", .str "cluster"), ("name", .str "pvec")]] (by decide),
   C7_fixed_family_set.2.2 [[("type", .str "node"), ("id", .str "node/pve1")]] (by decide)⟩

lemma find?_addSample_ne (tbl : Tbl) (k₁ : String) (s : Sample) (k : String)
    (h : k ≠ k₁) :
    (addSample tbl k₁ s).find? (fun kv => kv.1 = k) = tbl.find? (fun kv => kv.1 = k) := by
  induction tbl with
  | nil => rfl
  | cons kv₀ rest ih =>
    simp only [addSample, List.map_cons] at ih ⊢
    by_cases hk : kv₀.1 = k
    · have hne₁ : ¬(kv₀.1 = k₁) := by
        rw [hk]
        exact fun hc => h hc
      rw [if_neg hne₁, List.find?_cons_of_pos _ (by simp [hk]),
        List.find?_cons_of_pos _ (by simp [hk])]
    · by_cases hk₁ : kv₀.1 = k₁
      · rw [if_pos hk₁, List.find?_cons_of_neg _ (by simp [hk]),
          List.find?_cons_of_neg _ (by simp [hk])]
        exact ih
      · rw [if_neg hk₁, List.find?_cons_of_neg _ (by simp [hk]),
          List.find?_cons_of_neg _ (by simp [hk])]
        exact ih

lemma find?_addSample_same (tbl : Tbl) (k : String) (s : Sample) (kv₀ : String × List Sample)
    (h : tbl.find? (fun kv => kv.1 = k) = some kv₀) :
    (addSample tbl k s).find? (fun kv => kv.1 = k) = some (kv₀.1, kv₀.2 ++ [s]) := by
  induction tbl with
  | nil => cases h
  | cons kv₁ rest ih =>
    simp only [addSample, List.map_cons] at ih ⊢
    by_cases hk : kv₁.1 = k
    · rw [List.find?_cons_of_pos _ (by simp [hk])] at h
      obtain rfl : kv₁ = kv₀ := Option.some.inj h
      rw [if_pos hk, List.find?_cons_of_pos _ (by simp [hk])]
    · rw [List.find?_cons_of_neg _ (by simp [hk])] at h
      rw [if_neg hk, List.find?_cons_of_neg _ (by simp [hk])]
      exact ih h

lemma lookupSamples_addSample_ne (tbl : Tbl) (k₁ : String) (s : Sample) (k : String)
    (h : k ≠ k₁) :
    lookupSamples (addSample tbl k₁ s) k = lookupSamples tbl k := by
  unfold lookupSamples
  rw [find?_addSample_ne tbl k₁ s k h]

lemma lookupSamples_addSample_same (tbl : Tbl) (k : String) (s : Sample)
    (kv₀ : String × List Sample) (h : tbl.find? (fun kv => kv.1 = k) = some kv₀) :
    lookupSamples (addSample tbl k s) k = lookupSamples tbl k ++ [s] := by
  unfold lookupSamples
  rw [find?_addSample_same tbl k s kv₀ h, h]
  rfl

lemma metricLoop_lookup_notkey (res pairs : List (String × RVal)) (tbl : Tbl)
    (k : String) (h : findFamDecl k = none) :
    lookupSamples (metricLoop res pairs tbl) k = lookupSamples tbl k := by
  induction pairs generalizing tbl with
  | nil => rfl
  | cons kv rest ih =>
    obtain ⟨k₁, v⟩ := kv
    simp only [metricLoop]
    rcases hfd : findFamDecl k₁ with _ | fd
    · dsimp only
      exact ih tbl
    · dsimp only
      have hne : k ≠ k₁ := by
        rintro rfl
        rw [h] at hfd
        cases hfd
      rw [ih, lookupSamples_addSample_ne _ _ _ _ hne]

lemma metricLoop_lookup_key (res pairs : List (String × RVal)) (tbl : Tbl)
    (k : String) (fd : FamDecl) (hfd : findFamDecl k = some fd)
    (hsome : (tbl.find? (fun kv => kv.1 = k)).isSome = true) :
    lookupSamples (metricLoop res pairs tbl) k =
      lookupSamples tbl k ++ (pairs.filter (fun kv => kv.1 = k)).map
        (fun kv => (⟨fd.labels.filterMap (fun l => pyLookup res l), kv.2⟩ : Sample)) := by
  induction pairs generalizing tbl with
  | nil => simp [metricLoop]
  | cons kv rest ih =>
    obtain ⟨k₁, v⟩ := kv
    simp only [metricLoop]
    by_cases hk₁ : k₁ = k
    · subst hk₁
      rw [hfd, List.filter_cons_of_pos (by simp)]
      obtain ⟨kv₀, hkv₀⟩ := Option.isSome_iff_exists.mp hsome
      have hsome₁ : ((addSample tbl k₁
          ⟨fd.labels.filterMap (fun l => pyLookup res l), v⟩).find?
            (fun kv => kv.1 = k₁)).isSome = true := by
        rw [find?_addSample_same tbl k₁ _ kv₀ hkv₀]
        rfl
      rw [ih _ hsome₁, lookupSamples_addSample_same tbl k₁ _ kv₀ hkv₀]
      simp [List.append_assoc]
    · rw [List.filter_cons_of_neg (by simp [hk₁])]
      rcases hfd₁ : findFamDecl k₁ with _ | fd₁
      · dsimp only
        exact ih tbl hsome
      · dsimp only
        have hne : k ≠ k₁ := Ne.symm hk₁
        have hsome₁ : ((addSample tbl k₁
            ⟨fd₁.labels.filterMap (fun l => pyLookup res l), v⟩).find?
              (fun kv => kv.1 = k)).isSome = true := by
          rw [find?_addSample_ne _ _ _ _ hne]
          exact hsome
        rw [ih _ hsome₁, lookupSamples_addSample_ne _ _ _ _ hne]

lemma pyLookup_filter_single (r : List (String × RVal)) (k : String) (v : RVal)
    (hnd : (r.map Prod.fst).Nodup) (h : pyLookup r k = some v) :
    r.filter (fun kv => kv.1 = k) = [(k, v)] := by
  induction r with
  | nil => cases h
  | cons kv₀ rest ih =>
    obtain ⟨k₀, v₀⟩ := kv₀
    simp only [List.map_cons, List.nodup_cons] at hnd
    by_cases hk : k₀ = k
    · subst hk
      simp only [pyLookup, if_pos rfl] at h
      obtain rfl : v₀ = v := Option.some.inj h
      rw [List.filter_cons_of_pos (by simp)]
      have hrest : rest.filter (fun kv => kv.1 = k₀) = [] := by
        rw [List.filter_eq_nil_iff]
        intro kv hkv
        simp only [decide_eq_true_eq]
        intro hc
        exact hnd.1 (hc ▸ List.mem_map_of_mem Prod.fst hkv)
      rw [hrest]
    · rw [List.filter_cons_of_neg (by simp [hk])]
      simp only [pyLookup, if_neg hk] at h
      exact ih hnd.2 h

/-- Claim C9: the two passes of `ClusterResourcesCollector` resolve absent
labels differently.  For a "storage" record, the info pass emits its
sample with the full declared label list, padding every absent label with
the empty string; the metric pass (here for `maxdisk`) emits its sample
with the absent declared labels omitted entirely, so the label-value list
can be shorter than the declared schema. -/
theorem C9_absent_label_policies :
    ∀ r : List (String × RVal),
      (r.map Prod.fst).Nodup →
      pyLookup r "type" = some (.str "storage") →
      ∃ fams, ClusterResourcesCollector.collect [r] = .ok fams ∧
        (∃ fam ∈ fams, fam.name = "pve_storage_info" ∧
          fam.labels = ["id", "node", "storage"] ∧
          fam.samples = [⟨["id", "node", "storage"].map
            (fun l => (pyLookup r l).getD (.str "")), .num 1⟩])
        ∧ (∀ v, pyLookup r "maxdisk" = some v →
            ∃ fam ∈ fams, fam.name = "pve_disk_size_bytes" ∧
              fam.labels = ["id", "type", "storage", "node"] ∧
              fam.samples = [⟨["id", "type", "storage", "node"].filterMap
                (fun l => pyLookup r l), v⟩]) := by
  intro r hnd hty
  have hloop : resourcesLoop [r] tblInit =
      .ok (metricLoop r r (infoPass r tblInit (.str "storage"))) := by
    simp only [resourcesLoop, resourceStep]
    rw [hty]
  have hinfo : infoPass r tblInit (.str "storage") =
      addSample tblInit "storage"
        ⟨["id", "node", "storage"].map (fun l => (pyLookup r l).getD (.str "")),
         .num 1⟩ := rfl
  unfold ClusterResourcesCollector.collect
  rw [hloop]
  refine ⟨_, rfl, ?_, ?_⟩
  · refine ⟨_, List.mem_map.mpr
      ⟨⟨"storage", "pve_storage_info", ["id", "node", "storage"]⟩, by decide, rfl⟩,
      rfl, rfl, ?_⟩
    have h₁ : findFamDecl "storage" = none := by decide
    rw [metricLoop_lookup_notkey r r _ "storage" h₁, hinfo,
      lookupSamples_addSample_same tblInit "storage" _ ("storage", ([] : List Sample))
        (by decide)]
    rfl
  · intro v hv
    refine ⟨_, List.mem_map.mpr
      ⟨⟨"maxdisk", "pve_disk_size_bytes", ["id", "type", "storage", "node"]⟩,
        by decide, rfl⟩,
      rfl, rfl, ?_⟩
    have hfd : findFamDecl "maxdisk" =
        some ⟨"maxdisk", "pve_disk_size_bytes", ["id", "type", "storage", "node"]⟩ := by
      decide
    have hmd : ("maxdisk" : String) ≠ "storage" := by decide
    have hfind₁ : ((addSample tblInit "storage"
        ⟨["id", "node", "storage"].map (fun l => (pyLookup r l).getD (.str "")),
         .num 1⟩).find? (fun kv => kv.1 = "maxdisk")).isSome = true := by
      rw [find?_addSample_ne _ _ _ _ hmd]
      decide
    rw [hinfo, metricLoop_lookup_key r r _ "maxdisk" _ hfd hfind₁,
      lookupSamples_addSample_ne _ _ _ _ hmd,
      pyLookup_filter_single r "maxdisk" v hnd hv]
    rfl

/-- Claim C9 instantiated: a storage record carrying only `type`, `id` and
`maxdisk` gets a storage-info sample whose `node`/`storage` labels are
padded with "" (three label values), while its `maxdisk` sample carries
only the two present labels of the four declared. -/
theorem C9_witness :
    ∃ fams,
      ClusterResourcesCollector.collect
          [[("type", .str "storage"), ("id", .str "storage/pve1/local"),
            ("maxdisk", .num 100)]] = .ok fams ∧
      (∃ fam ∈ fams, fam.name = "pve_storage_info" ∧
        fam.labels = ["id", "node", "storage"] ∧
        fam.samples = [⟨["id", "node", "storage"].map
          (fun l => (pyLookup [("type", .str "storage"),
            ("id", .str "storage/pve1/local"), ("maxdisk", .num 100)] l).getD (.str "")),
          .num 1⟩])
      ∧ (∀ v, pyLookup [("type", .str "storage"), ("id", .str "storage/pve1/local"),
            ("maxdisk", .num 100)] "maxdisk" = some v →
          ∃ fam ∈ fams, fam.name = "pve_disk_size_bytes" ∧
            fam.labels = ["id", "type", "storage", "node"] ∧
            fam.samples = [⟨["id", "type", "storage", "node"].filterMap
              (fun l => pyLookup [("type", .str "storage"),
                ("id", .str "storage/pve1/local"), ("maxdisk", .num 100)] l), v⟩]) :=
  C9_absent_label_policies
    [("type", .str "storage"), ("id", .str "storage/pve1/local"), ("maxdisk", .num 100)]
    (by decide) (by decide)

end PveExporter
